import Mathlib

/-!
Verification development for the node-local micro-segmentation daemon
(Go sources under internal/iptables, internal/controller, and the newer
controller file shipped as unnamed/part_001).

Shallow embedding conventions:
* Go strings are modelled as Lean `String` (a list of characters); Go's
  byte-level operations (`len`, slicing) are modelled at the character
  level, which coincides with the source for ASCII input.
* Go's `strings.TrimSpace` is modelled by `Microseg.trimSpace`, which
  drops ASCII whitespace characters from both ends.
* Fallible subprocess calls are driven by a `FailOracle` describing which
  underlying `iptables`/`ipset` invocations fail; state changes caused by
  the wrapped tools are tracked in an explicit `FwState`.
* `Except.error ()` models the Go pattern `return false, err`, and
  `Except.ok b` models `return b, nil`.
-/

namespace Microseg

/-- ASCII whitespace recognizer, mirroring the characters `strings.TrimSpace`
removes for ASCII input (space, tab, newline, vertical tab, form feed,
carriage return). -/
def isSpaceChar (c : Char) : Bool :=
  c == ' ' || c == '\t' || c == '\n' || c == '\x0b' || c == '\x0c' || c == '\r'

/-- Model of Go `strings.TrimSpace` on ASCII strings: drop whitespace from
both ends. -/
def trimSpace (s : String) : String :=
  ⟨(((s.data.dropWhile isSpaceChar).reverse.dropWhile isSpaceChar).reverse)⟩

/-- Character-level model of Go `strings.ToUpper` (ASCII). -/
def goToUpper (s : String) : String :=
  ⟨(s.data.map Char.toUpper)⟩

/-- Character-level model of Go `strings.ToLower` (ASCII). -/
def goToLower (s : String) : String :=
  ⟨(s.data.map Char.toLower)⟩

/-- Character-level model of Go `strings.ReplaceAll s (single char) (single char)`. -/
def replaceChar (s : String) (old new : Char) : String :=
  ⟨(s.data.map (fun c => if c == old then new else c))⟩

/-! ## Policy data model (internal/controller/policy.go) -/

/-- Model of `Rule` (legacy per-CIDR/port rule).  `Port` is `int32` in Go;
it is modelled as `Int`. -/
structure Rule where
  Action : String
  SrcCIDR : String
  Protocol : String
  Port : Int
deriving DecidableEq, Repr

/-- Model of `DeploymentRef`. -/
structure DeploymentRef where
  Namespace : String
  Name : String
deriving DecidableEq, Repr

/-- Model of `DeploymentPolicy`.  Go nil slices and empty slices are both
modelled as `[]`. -/
structure DeploymentPolicy where
  Namespace : String
  Name : String
  IngressFrom : List DeploymentRef
  EgressTo : List DeploymentRef
  Rules : List Rule
deriving DecidableEq, Repr

/-- Model of `PolicyConfig`. -/
structure PolicyConfig where
  DefaultAction : String
  Deployments : List DeploymentPolicy
deriving DecidableEq, Repr

/-- Model of `DeploymentKey` (internal/controller, unnamed/part_001). -/
structure DeploymentKey where
  Namespace : String
  Name : String
deriving DecidableEq, Repr

/-! ## rules.go -/

/-- Model of `findDeploymentPolicy`: first deployment policy matching the
namespace and name.  The Go function takes a nillable pointer; `Sync`
always passes a non-nil policy, so the policy argument is total here and
the nil result is `Option.none`. -/
def findDeploymentPolicy (policy : PolicyConfig) (ns name : String) : Option DeploymentPolicy :=
  policy.Deployments.find? (fun d => d.Namespace == ns && d.Name == name)

/-- Model of `normalizeAction`. -/
def normalizeAction (action : String) : String :=
  let a := goToUpper (trimSpace action)
  if a == "ALLOW" then "ACCEPT"
  else if a == "ACCEPT" then "ACCEPT"
  else if a == "DENY" then "DROP"
  else if a == "DROP" then "DROP"
  else if a == "REJECT" then "REJECT"
  else if a == "RETURN" then "RETURN"
  else ""

/-- The action a legacy rule resolves to: the rule's own normalized
action, falling back to the normalized policy default when empty. -/
def legacyAction (policy : PolicyConfig) (r : Rule) : String :=
  if normalizeAction r.Action == "" then normalizeAction policy.DefaultAction
  else normalizeAction r.Action

/-- The match arguments of one legacy rule for one pod IP, before the
final `-j`: destination IP, then optional source CIDR, then optional
protocol with optional port (a port without protocol is dropped with a
log in the source). -/
def legacyBaseArgs (r : Rule) (ip : String) : List String :=
  (if trimSpace r.SrcCIDR == "" then [ "-d", ip ] else [ "-d", ip ] ++ [ "-s", r.SrcCIDR ])
    ++ (if trimSpace r.Protocol == "" then []
      else [ "-p", goToLower (trimSpace r.Protocol) ]
        ++ (if 0 < r.Port then [ "--dport", toString r.Port ] else []))

/-- One emitted legacy rule for a single pod IP (loop body of
`buildLegacyIngressRules`): the incrementally built argument list of the
source, split into base arguments and the final jump target. -/
def legacyRuleArgs (policy : PolicyConfig) (ip : String) (r : Rule) : List String :=
  legacyBaseArgs r ip ++ [ "-j", legacyAction policy r ]

/-- Model of `buildLegacyIngressRules`.  The Go loop appends, for every
non-blank pod IP, one rule per legacy rule of the deployment policy.  The
`ns`/`name` arguments are used only for logging in the source. -/
def buildLegacyIngressRules (podIPs : List String) (policy : PolicyConfig)
    (depPolicy : DeploymentPolicy) (_ns _name : String) : List (List String) :=
  podIPs.flatMap (fun ip =>
    if trimSpace ip == "" then []
    else depPolicy.Rules.map (legacyRuleArgs policy ip))

/-- The set-match ACCEPT rule emitted in whitelist ingress mode. -/
def setAcceptRule (srcSetName dstIP : String) : List String :=
  [ "-m", "set", "--match-set", srcSetName, "src", "-d", dstIP, "-j", "ACCEPT" ]

/-- The unconditional DROP rule emitted in whitelist ingress mode. -/
def dropInRule (dstIP : String) : List String :=
  [ "-d", dstIP, "-j", "DROP" ]

/-- Loop body of the whitelist branch of `buildIngressRules`: skip blank
IPs; emit the set-match ACCEPT (when the set name is non-blank)
immediately followed by the unconditional DROP. -/
def whitelistIngressBlock (srcSetName dstIP : String) : List (List String) :=
  if trimSpace dstIP == "" then []
  else
    (if trimSpace srcSetName == "" then [] else [ setAcceptRule srcSetName dstIP ])
      ++ [ dropInRule dstIP ]

/-- Model of `buildIngressRules`. -/
def buildIngressRules (podIPs : List String) (policy : PolicyConfig)
    (ns name srcSetName : String) : List (List String) :=
  match findDeploymentPolicy policy ns name with
  | none =>
      podIPs.flatMap (fun ip =>
        if trimSpace ip == "" then [] else [ [ "-d", ip, "-j", "ACCEPT" ] ])
  | some depPolicy =>
      if depPolicy.IngressFrom.isEmpty && !depPolicy.Rules.isEmpty then
        buildLegacyIngressRules podIPs policy depPolicy ns name
      else if depPolicy.IngressFrom.isEmpty then
        podIPs.flatMap (fun ip =>
          if trimSpace ip == "" then [] else [ [ "-d", ip, "-j", "ACCEPT" ] ])
      else
        podIPs.flatMap (whitelistIngressBlock srcSetName)

/-- Model of `buildEgressRules`. -/
def buildEgressRules (podIPs : List String) (_ns _name dstSetName : String) :
    List (List String) :=
  if trimSpace dstSetName == "" then
    podIPs.flatMap (fun ip =>
      if trimSpace ip == "" then [] else [ [ "-s", ip, "-j", "RETURN" ] ])
  else
    podIPs.flatMap (fun srcIP =>
      if trimSpace srcIP == "" then []
      else
        [ [ "-m", "set", "--match-set", dstSetName, "dst", "-s", srcIP, "-j", "RETURN" ],
          [ "-s", srcIP, "-j", "DROP" ] ])

/-- Model of `collectPeerIPs`.  The Go function collects the IPs into a
set-valued map and returns its keys; the iteration order of a Go map is
unspecified, so the model fixes the canonical first-occurrence order
(`List.dedup`). -/
def collectPeerIPs (refs : List DeploymentRef) (depPodIPsAll : DeploymentKey → List String) :
    List String :=
  ((refs.flatMap (fun ref => depPodIPsAll ⟨ref.Namespace, ref.Name⟩)).filter
    (fun ip => !(trimSpace ip == ""))).dedup

/-! ## internal/iptables/iptables.go: name encoder -/

/-- Model of `MakeChainName`.  Note the source order of operations: the
concatenation is truncated to 26 characters FIRST, then `/` and `:` are
replaced by `-`, then the result is upper-cased.  Go's byte-level `len`
and slicing are modelled at the character level (they coincide for ASCII
input). -/
def MakeChainName (p ns name : String) : String :=
  let base := p ++ "-" ++ ns ++ "-" ++ name
  let base := if 26 < base.data.length then ⟨(base.data.take 26)⟩ else base
  let base := replaceChar base '/' '-'
  let base := replaceChar base ':' '-'
  goToUpper base

/-- Characters the spec permits in owned chain identifiers: upper-case
letters, digits and hyphens. -/
def isChainNameChar (c : Char) : Bool :=
  ('A' ≤ c && c ≤ 'Z') || ('0' ≤ c && c ≤ '9') || c == '-'

/-- Modelled from the spec: `MakeSetName` is called by `Sync`
(unnamed/part_001) but is not defined anywhere under the provided sources.
Spec §4.1 describes the shared name encoder: concatenate the inputs with
hyphens, upper-case, replace every character outside `[A-Z0-9-]` with `-`,
and truncate to 26 characters. -/
def MakeSetName (p tag rest : String) : String :=
  let base := p ++ "-" ++ tag ++ "-" ++ rest
  let up := goToUpper base
  let cleaned : String := ⟨(up.data.map (fun c => if isChainNameChar c then c else '-'))⟩
  ⟨(cleaned.data.take 26)⟩

/-! ## internal/iptables/iptables.go: filter driver over an explicit state -/

/-- Kernel packet-filter state visible to the daemon: custom chains and
their rule lists, the shared FORWARD chain, and the named IP sets.  A rule
is the list of `iptables` arguments used to append it. -/
structure FwState where
  chains : String → Option (List (List String))
  forward : List (List String)
  ipsets : String → Option (List String)

/-- Failure oracle for the underlying subprocess invocations.  Each field
says whether the corresponding `iptables`/`ipset` call fails. -/
structure FailOracle where
  ensureChainFails : String → Bool
  ensureJumpFails : String → Bool
  syncRulesFlushFails : String → Bool
  syncRulesAppendFails : String → List String → Bool
  syncIPSetFails : String → Bool

/-- Pointwise update of the chain map. -/
def updateChains (f : String → Option (List (List String))) (c : String)
    (rs : List (List String)) : String → Option (List (List String)) :=
  fun n => if n == c then some rs else f n

/-- Pointwise update of the IP-set map. -/
def updateIPSets (f : String → Option (List String)) (s : String)
    (ips : List String) : String → Option (List String) :=
  fun n => if n == s then some ips else f n

/-- Model of `EnsureChain`: the `-L` inspection succeeds exactly when the
chain exists; otherwise `-N` creates it (empty), unless the oracle makes
the creation fail.  `false` models a non-nil Go error; the state component
carries the kernel state left behind. -/
def EnsureChain (o : FailOracle) (st : FwState) (chain : String) : Bool × FwState :=
  if (st.chains chain).isSome then ( true, st )
  else if o.ensureChainFails chain then ( false, st )
  else ( true, { st with chains := updateChains st.chains chain [] } )

/-- The FORWARD-chain jump rule to a root chain. -/
def jumpRule (rootChain : String) : List String :=
  [ "-j", rootChain ]

/-- Model of `EnsureJump`.  In `insert` mode the existing jump is deleted
best-effort (`-D` removes the first matching rule; absence is ignored) and
a fresh jump is inserted at position 1 (the front).  In any other mode the
jump is appended unless the `-C` check finds it already present.  Note
that on an `insert`-mode failure the deletion has already happened. -/
def EnsureJump (o : FailOracle) (st : FwState) (rootChain position : String) :
    Bool × FwState :=
  if position == "insert" then
    let fwd := st.forward.erase (jumpRule rootChain)
    if o.ensureJumpFails rootChain then ( false, { st with forward := fwd } )
    else ( true, { st with forward := jumpRule rootChain :: fwd } )
  else
    if st.forward.contains (jumpRule rootChain) then ( true, st )
    else if o.ensureJumpFails rootChain then ( false, st )
    else ( true, { st with forward := st.forward ++ [ jumpRule rootChain ] } )

/-- Append loop of `SyncRules`: `-A` each rule in order; on the first
failing append, return the error with the state built so far. -/
def syncRulesAppendLoop (o : FailOracle) (chain : String) :
    List (List String) → FwState → (Except Unit Bool) × FwState
  | [], st => ( Except.ok true, st )
  | r :: rest, st =>
    if o.syncRulesAppendFails chain r then ( Except.error (), st )
    else
      syncRulesAppendLoop o chain rest
        { st with chains := updateChains st.chains chain (((st.chains chain).getD []) ++ [ r ]) }

/-- Model of `SyncRules`: flush the chain (`-F`), then append the rules in
order; `changed` is `true` on full success.  `Except.error ()` models the
Go `return false, err` pattern. -/
def SyncRules (o : FailOracle) (st : FwState) (chain : String)
    (rules : List (List String)) : (Except Unit Bool) × FwState :=
  if o.syncRulesFlushFails chain then ( Except.error (), st )
  else syncRulesAppendLoop o chain rules { st with chains := updateChains st.chains chain [] }

/-- Modelled from the spec: `SyncIPSet` is called by `Sync`
(unnamed/part_001) but is not defined anywhere under the provided sources.
Spec §4.2: ensure the named set exists and replace its membership with the
given elements via the atomic swap idiom, so on failure the old contents
remain. -/
def SyncIPSet (o : FailOracle) (st : FwState) (setName : String) (ips : List String) :
    Bool × FwState :=
  if o.syncIPSetFails setName then ( false, st )
  else ( true, { st with ipsets := updateIPSets st.ipsets setName ips } )

/-! ## unnamed/part_001: the reconciler (`Controller.Sync`)

The cluster snapshot is modelled by deployment and pod views.  Label
selectors are modelled by their `matchLabels` conjunction-of-equalities
form (the shape `LabelSelectorAsSelector` produces for the common case);
selectors that fail to compile are skipped by the source and are not
modelled.  Go map iteration order is unspecified; the model iterates
deployments in snapshot order, which is sound for the properties proved
here because per-key data is independent and the root-chain jump list is
sorted before use.  Deployment keys are assumed distinct in the snapshot
(the Go map would otherwise keep only the last selector). -/

/-- Per-deployment projection of the cluster snapshot. -/
structure DeploymentView where
  Namespace : String
  Name : String
  MatchLabels : List (String × String)
deriving DecidableEq, Repr

/-- Per-pod projection of the cluster snapshot (`p.Labels`,
`p.Status.PodIP`, `p.Spec.NodeName`). -/
structure PodView where
  Labels : List (String × String)
  PodIP : String
  NodeName : String
deriving DecidableEq, Repr

/-- Selector matching: every `matchLabels` entry must be present in the
pod's labels. -/
def selMatches (sel : List (String × String)) (lbls : List (String × String)) : Bool :=
  sel.all (fun kv => lbls.lookup kv.1 == some kv.2)

/-- All pod IPs collected for a deployment (`depPodIPsAll`): every pod
whose labels match contributes its IP, empty or not, in pod order. -/
def allIPsOf (pods : List PodView) (d : DeploymentView) : List String :=
  pods.filterMap (fun p => if selMatches d.MatchLabels p.Labels then some p.PodIP else none)

/-- Local pod IPs collected for a deployment (`depPodIPsLocal`): as
`allIPsOf` but restricted to pods on this node.  The source appends
`p.Status.PodIP` unconditionally once the selector and node match, so
empty IP strings are collected too. -/
def localIPsOf (pods : List PodView) (nodeName : String) (d : DeploymentView) : List String :=
  pods.filterMap (fun p =>
    if selMatches d.MatchLabels p.Labels && (p.NodeName == nodeName) then some p.PodIP else none)

/-- `depPodIPsAll` as a map keyed by deployment key. -/
def allIPsByKey (deps : List DeploymentView) (pods : List PodView) (k : DeploymentKey) :
    List String :=
  match deps.find? (fun d => d.Namespace == k.Namespace && d.Name == k.Name) with
  | some d => allIPsOf pods d
  | none => []

/-- The deployments the per-workload loop processes: exactly those with at
least one entry in `depPodIPsLocal` (the `len == 0` guard in the source is
unreachable for keys present in the map). -/
def localWorkloads (deps : List DeploymentView) (pods : List PodView) (nodeName : String) :
    List DeploymentView :=
  deps.filter (fun d => !(localIPsOf pods nodeName d).isEmpty)

/-- The IN chain identifier for a workload. -/
def chainInNameOf (d : DeploymentView) : String :=
  MakeChainName "MS" "IN" (d.Namespace ++ "-" ++ d.Name)

/-- The OUT chain identifier for a workload. -/
def chainOutNameOf (d : DeploymentView) : String :=
  MakeChainName "MS" "OUT" (d.Namespace ++ "-" ++ d.Name)

/-- The ROOT-IN chain identifier (the controller prefix is fixed to
`MS` by `NewController`). -/
def rootChainInName : String := MakeChainName "MS" "ROOT" "IN"

/-- The ROOT-OUT chain identifier. -/
def rootChainOutName : String := MakeChainName "MS" "ROOT" "OUT"

/-- Root-chain setup phase of `Sync`: ensure both root chains exist and
install the FORWARD jumps.  Any failure here aborts the cycle (`none`).
Source order: ensure OUT chain, ensure IN chain; then under `insert`
ensure the IN jump before the OUT jump, otherwise OUT before IN. -/
def syncRootStage (o : FailOracle) (st : FwState) (position : String) : Option FwState :=
  let r1 := EnsureChain o st rootChainOutName
  if !r1.1 then none else
  let r2 := EnsureChain o r1.2 rootChainInName
  if !r2.1 then none else
  if position == "insert" then
    let j1 := EnsureJump o r2.2 rootChainInName position
    if !j1.1 then none else
    let j2 := EnsureJump o j1.2 rootChainOutName position
    if !j2.1 then none else some j2.2
  else
    let j1 := EnsureJump o r2.2 rootChainOutName position
    if !j1.1 then none else
    let j2 := EnsureJump o j1.2 rootChainInName position
    if !j2.1 then none else some j2.2

/-- Whether the per-workload ingress whitelist is active
(`depPolicy != nil && len(depPolicy.IngressFrom) > 0`). -/
def ingressOn (dp : Option DeploymentPolicy) : Bool :=
  match dp with
  | some p => !p.IngressFrom.isEmpty
  | none => false

/-- Whether the per-workload egress whitelist is active. -/
def egressOn (dp : Option DeploymentPolicy) : Bool :=
  match dp with
  | some p => !p.EgressTo.isEmpty
  | none => false

/-- The peer refs feeding the SRC set. -/
def ingressRefsOf (dp : Option DeploymentPolicy) : List DeploymentRef :=
  match dp with
  | some p => p.IngressFrom
  | none => []

/-- The peer refs feeding the DST set. -/
def egressRefsOf (dp : Option DeploymentPolicy) : List DeploymentRef :=
  match dp with
  | some p => p.EgressTo
  | none => []

/-- Loop body of `Sync` for one workload with local pods.  Mirrors the
source control flow: a failing `EnsureChain` or `SyncRules` skips the rest
of the workload (`continue`), while a failing `SyncIPSet` is only logged
and processing goes on. -/
def perWorkload (o : FailOracle) (policy : PolicyConfig)
    (allIPs : DeploymentKey → List String) (st : FwState) (w : DeploymentView)
    (localIPs : List String) : FwState :=
  let cIn := chainInNameOf w
  let cOut := chainOutNameOf w
  let r1 := EnsureChain o st cIn
  if !r1.1 then r1.2 else
  let r2 := EnsureChain o r1.2 cOut
  if !r2.1 then r2.2 else
  let dp := findDeploymentPolicy policy w.Namespace w.Name
  let srcSetName :=
    if ingressOn dp then MakeSetName "MS" "SRC" (w.Namespace ++ "-" ++ w.Name) else ""
  let st3 :=
    if ingressOn dp then (SyncIPSet o r2.2 srcSetName (collectPeerIPs (ingressRefsOf dp) allIPs)).2
    else r2.2
  let dstSetName :=
    if egressOn dp then MakeSetName "MS" "DST" (w.Namespace ++ "-" ++ w.Name) else ""
  let st4 :=
    if egressOn dp then (SyncIPSet o st3 dstSetName (collectPeerIPs (egressRefsOf dp) allIPs)).2
    else st3
  let r5 := SyncRules o st4 cIn (buildIngressRules localIPs policy w.Namespace w.Name srcSetName)
  if !r5.1.isOk then r5.2 else
  (SyncRules o r5.2 cOut (buildEgressRules localIPs w.Namespace w.Name dstSetName)).2

/-- Lexicographic comparison of character lists by code point, the order
`sort.Strings` uses (byte-wise for Go; identical on ASCII). -/
def lexLe : List Char → List Char → Bool
  | [], _ => true
  | _ :: _, [] => false
  | a :: as, b :: bs =>
    if a.toNat < b.toNat then true
    else if b.toNat < a.toNat then false
    else lexLe as bs

/-- Lexicographic string comparison. -/
def stringLe (a b : String) : Bool :=
  lexLe a.data b.data

/-- `stringLe` as a relation, for use with `List.Sorted`. -/
def strLE (a b : String) : Prop :=
  stringLe a b = true

theorem lexLe_total : ∀ l1 l2 : List Char, lexLe l1 l2 = true ∨ lexLe l2 l1 = true
  | [], _ => Or.inl rfl
  | _ :: _, [] => Or.inr rfl
  | a :: as, b :: bs => by
    by_cases h1 : a.toNat < b.toNat
    · exact Or.inl (by simp [lexLe, h1])
    · by_cases h2 : b.toNat < a.toNat
      · exact Or.inr (by simp [lexLe, h1, h2])
      · rcases lexLe_total as bs with h | h
        · exact Or.inl (by simp [lexLe, h1, h2, h])
        · exact Or.inr (by simp [lexLe, h1, h2, h])

theorem lexLe_trans : ∀ l1 l2 l3 : List Char,
    lexLe l1 l2 = true → lexLe l2 l3 = true → lexLe l1 l3 = true
  | [], _, _, _, _ => rfl
  | _ :: _, [], _, h12, _ => by simp [lexLe] at h12
  | _ :: _, _ :: _, [], _, h23 => by simp [lexLe] at h23
  | a :: as, b :: bs, c :: cs, h12, h23 => by
    simp only [lexLe] at h12 h23 ⊢
    split_ifs at h12 h23 ⊢ <;> try rfl
    all_goals first
      | omega
      | { exact lexLe_trans as bs cs h12 h23 }

instance : DecidableRel strLE :=
  fun a b => inferInstanceAs (Decidable (stringLe a b = true))

instance : IsTotal String strLE :=
  ⟨fun a b => lexLe_total a.data b.data⟩

instance : IsTrans String strLE :=
  ⟨fun a b c => lexLe_trans a.data b.data c.data⟩

/-- Sorted list of identifiers, modelling `sort.Strings` (byte-wise
lexicographic; the character-wise order coincides for ASCII). -/
def sortStrings (l : List String) : List String :=
  List.insertionSort strLE l

/-- The IN workload chains desired this cycle.  The source records the
chain name BEFORE any of the workload's fallible steps, so every local
workload contributes its name, failed or not. -/
def desiredChainsIn (deps : List DeploymentView) (pods : List PodView) (nodeName : String) :
    List String :=
  (localWorkloads deps pods nodeName).map chainInNameOf

/-- The OUT workload chains desired this cycle. -/
def desiredChainsOut (deps : List DeploymentView) (pods : List PodView) (nodeName : String) :
    List String :=
  (localWorkloads deps pods nodeName).map chainOutNameOf

/-- The conntrack ACCEPT rule put at the top of both root chains. -/
def establishedRule : List String :=
  [ "-m", "conntrack", "--ctstate", "ESTABLISHED,RELATED", "-j", "ACCEPT" ]

/-- The rule list written into the ROOT-IN chain. -/
def rootRulesInOf (deps : List DeploymentView) (pods : List PodView) (nodeName : String) :
    List (List String) :=
  establishedRule :: (sortStrings (desiredChainsIn deps pods nodeName)).map jumpRule

/-- The rule list written into the ROOT-OUT chain. -/
def rootRulesOutOf (deps : List DeploymentView) (pods : List PodView) (nodeName : String) :
    List (List String) :=
  establishedRule :: (sortStrings (desiredChainsOut deps pods nodeName)).map jumpRule

/-- Tail of `Sync` after a successful root stage: run the per-workload
loop, then rebuild both root chains; root-rule sync failures are only
logged. -/
def syncWorkloadsAndRoots (o : FailOracle) (policy : PolicyConfig)
    (deps : List DeploymentView) (pods : List PodView) (nodeName : String)
    (st : FwState) : FwState :=
  let allIPs := allIPsByKey deps pods
  let st2 := (localWorkloads deps pods nodeName).foldl
    (fun s w => perWorkload o policy allIPs s w (localIPsOf pods nodeName w)) st
  let st3 := (SyncRules o st2 rootChainInName (rootRulesInOf deps pods nodeName)).2
  (SyncRules o st3 rootChainOutName (rootRulesOutOf deps pods nodeName)).2

/-- Model of `Controller.Sync` (unnamed/part_001) for one cycle, from the
already-fetched snapshot.  `none` models the error return (root chain
creation or jump installation failed); once past the root stage the sync
always reports success. -/
def Sync (o : FailOracle) (st : FwState) (deps : List DeploymentView)
    (pods : List PodView) (nodeName : String) (policy : PolicyConfig)
    (position : String) : Option FwState :=
  (syncRootStage o st position).map (syncWorkloadsAndRoots o policy deps pods nodeName)

/-! ## Lemmas about strings and the name encoder -/

theorem strData_append (s t : String) : (s ++ t).data = s.data ++ t.data := by
  cases s; cases t; rfl

/-- The per-character effect of `MakeChainName` after truncation: replace
`/` and `:` by `-`, then upper-case. -/
def chainCleanChar (c : Char) : Char :=
  Char.toUpper (if (if c == '/' then '-' else c) == ':' then '-'
    else if c == '/' then '-' else c)

theorem MakeChainName_data (p ns name : String) :
    (MakeChainName p ns name).data
      = ((p ++ "-" ++ ns ++ "-" ++ name).data.take 26).map chainCleanChar := by
  have hcomp : ∀ l : List Char,
      ((l.map (fun c => if c == '/' then '-' else c)).map
        (fun c => if c == ':' then '-' else c)).map Char.toUpper
        = l.map chainCleanChar := by
    intro l
    simp only [List.map_map]
    rfl
  unfold MakeChainName replaceChar goToUpper
  by_cases h : 26 < (p ++ "-" ++ ns ++ "-" ++ name).data.length
  · simp only [h, if_true]
    exact hcomp _
  · simp only [h, if_false]
    rw [List.take_of_length_le (le_of_not_lt h)]
    exact hcomp _

theorem MakeChainName_length_le (p ns name : String) :
    (MakeChainName p ns name).data.length ≤ 26 := by
  rw [MakeChainName_data]
  simp only [List.length_map, List.length_take]
  exact min_le_left _ _

theorem dataMS : "MS".data = [ 'M', 'S' ] := rfl

theorem dataHyphen : "-".data = [ '-' ] := rfl

theorem dataIN : "IN".data = [ 'I', 'N' ] := rfl

theorem dataOUT : "OUT".data = [ 'O', 'U', 'T' ] := rfl

theorem MakeChainName_MS_take3 (ns name : String) :
    (MakeChainName "MS" ns name).data.take 3 = [ 'M', 'S', '-' ] := by
  rw [MakeChainName_data, ← List.map_take, List.take_take]
  have h3 : min 3 26 = 3 := by decide
  rw [h3]
  have hdata : ("MS" ++ "-" ++ ns ++ "-" ++ name).data
      = 'M' :: 'S' :: '-' :: (ns.data ++ '-' :: name.data) := by
    simp only [strData_append, dataMS, dataHyphen]
    simp [List.append_assoc]
  rw [hdata]
  show List.map chainCleanChar [ 'M', 'S', '-' ] = [ 'M', 'S', '-' ]
  decide

theorem chainInNameOf_take6 (d : DeploymentView) :
    (chainInNameOf d).data.take 6 = [ 'M', 'S', '-', 'I', 'N', '-' ] := by
  unfold chainInNameOf
  rw [MakeChainName_data, ← List.map_take, List.take_take]
  have h6 : min 6 26 = 6 := by decide
  rw [h6]
  have hdata : ("MS" ++ "-" ++ "IN" ++ "-" ++ (d.Namespace ++ "-" ++ d.Name)).data
      = 'M' :: 'S' :: '-' :: 'I' :: 'N' :: '-' :: (d.Namespace ++ "-" ++ d.Name).data := by
    simp only [strData_append, dataMS, dataHyphen, dataIN]
    simp [List.append_assoc]
  rw [hdata]
  show List.map chainCleanChar [ 'M', 'S', '-', 'I', 'N', '-' ] = [ 'M', 'S', '-', 'I', 'N', '-' ]
  decide

theorem chainOutNameOf_take6 (d : DeploymentView) :
    (chainOutNameOf d).data.take 6 = [ 'M', 'S', '-', 'O', 'U', 'T' ] := by
  unfold chainOutNameOf
  rw [MakeChainName_data, ← List.map_take, List.take_take]
  have h6 : min 6 26 = 6 := by decide
  rw [h6]
  have hdata : ("MS" ++ "-" ++ "OUT" ++ "-" ++ (d.Namespace ++ "-" ++ d.Name)).data
      = 'M' :: 'S' :: '-' :: 'O' :: 'U' :: 'T' :: '-' :: (d.Namespace ++ "-" ++ d.Name).data := by
    simp only [strData_append, dataMS, dataHyphen, dataOUT]
    simp [List.append_assoc]
  rw [hdata]
  show List.map chainCleanChar [ 'M', 'S', '-', 'O', 'U', 'T' ] = [ 'M', 'S', '-', 'O', 'U', 'T' ]
  decide

theorem chainInNameOf_ne_rootIn (d : DeploymentView) : chainInNameOf d ≠ rootChainInName := by
  intro h
  have h6 : (chainInNameOf d).data.take 6 = rootChainInName.data.take 6 := by rw [h]
  rw [chainInNameOf_take6] at h6
  exact absurd h6 (by decide)

theorem chainInNameOf_ne_rootOut (d : DeploymentView) : chainInNameOf d ≠ rootChainOutName := by
  intro h
  have h6 : (chainInNameOf d).data.take 6 = rootChainOutName.data.take 6 := by rw [h]
  rw [chainInNameOf_take6] at h6
  exact absurd h6 (by decide)

theorem chainOutNameOf_ne_rootIn (d : DeploymentView) : chainOutNameOf d ≠ rootChainInName := by
  intro h
  have h6 : (chainOutNameOf d).data.take 6 = rootChainInName.data.take 6 := by rw [h]
  rw [chainOutNameOf_take6] at h6
  exact absurd h6 (by decide)

theorem chainOutNameOf_ne_rootOut (d : DeploymentView) : chainOutNameOf d ≠ rootChainOutName := by
  intro h
  have h6 : (chainOutNameOf d).data.take 6 = rootChainOutName.data.take 6 := by rw [h]
  rw [chainOutNameOf_take6] at h6
  exact absurd h6 (by decide)

theorem trimSpace_ne_empty (s : String) (c : Char) (t : List Char)
    (hd : s.data = c :: t) (hc : isSpaceChar c = false) : ¬ trimSpace s = "" := by
  intro h
  have hdata : (trimSpace s).data = [] := by rw [h]
  unfold trimSpace at hdata
  rw [hd] at hdata
  rw [List.dropWhile_cons] at hdata
  rw [hc] at hdata
  simp only [Bool.false_eq_true, if_false] at hdata
  rw [List.reverse_eq_nil_iff, List.dropWhile_eq_nil_iff] at hdata
  have hm : c ∈ (c :: t).reverse := by
    rw [List.mem_reverse]
    exact List.mem_cons_self c t
  have := hdata c hm
  rw [hc] at this
  exact Bool.false_ne_true this

theorem MakeSetName_MS_data (tag rest : String) :
    ∃ t, (MakeSetName "MS" tag rest).data = 'M' :: t := by
  unfold MakeSetName goToUpper
  cases htag : tag
  cases hrest : rest
  exact ⟨_, rfl⟩

theorem MakeSetName_MS_trim_ne (tag rest : String) :
    ¬ trimSpace (MakeSetName "MS" tag rest) = "" := by
  obtain ⟨t, ht⟩ := MakeSetName_MS_data tag rest
  exact trimSpace_ne_empty _ 'M' t ht (by decide)

/-! ## Whitelist ingress adjacency lemmas (for claim C1) -/

theorem whitelistIngressBlock_nonblank (sName ip : String)
    (hS : ¬ trimSpace sName = "") (hnb : ¬ trimSpace ip = "") :
    whitelistIngressBlock sName ip = [ setAcceptRule sName ip, dropInRule ip ] := by
  unfold whitelistIngressBlock
  rw [if_neg (by simpa using hnb), if_neg (by simpa using hS)]
  rfl

theorem whitelistIngressBlock_blank (sName ip : String) (hb : trimSpace ip = "") :
    whitelistIngressBlock sName ip = [] := by
  unfold whitelistIngressBlock
  rw [if_pos (by simpa using hb)]

theorem whitelist_exists_adjacent (sName : String) (hS : ¬ trimSpace sName = "") :
    ∀ (ips : List String) (ip : String), ip ∈ ips → ¬ trimSpace ip = "" →
      ∃ i, (ips.flatMap (whitelistIngressBlock sName))[i]? = some (setAcceptRule sName ip)
        ∧ (ips.flatMap (whitelistIngressBlock sName))[i+1]? = some (dropInRule ip) := by
  intro ips
  induction ips with
  | nil => intro ip h; simp at h
  | cons x rest ih =>
    intro ip hip hnb
    rw [List.flatMap_cons]
    rcases List.mem_cons.mp hip with rfl | hmem
    · rw [whitelistIngressBlock_nonblank sName ip hS hnb]
      exact ⟨0, by simp, by simp⟩
    · rcases ih ip hmem hnb with ⟨i, h1, h2⟩
      refine ⟨(whitelistIngressBlock sName x).length + i, ?_, ?_⟩
      · rw [List.getElem?_append_right (by omega)]
        simpa using h1
      · rw [List.getElem?_append_right (by omega)]
        have harith : (whitelistIngressBlock sName x).length + i + 1
            - (whitelistIngressBlock sName x).length = i + 1 := by omega
        rw [harith]
        exact h2

theorem whitelist_accept_implies_drop (sName : String) (hS : ¬ trimSpace sName = "") :
    ∀ (ips : List String) (j : Nat) (ip' : String),
      (ips.flatMap (whitelistIngressBlock sName))[j]? = some (setAcceptRule sName ip') →
      (ips.flatMap (whitelistIngressBlock sName))[j+1]? = some (dropInRule ip') := by
  intro ips
  induction ips with
  | nil => intro j ip' h; simp at h
  | cons x rest ih =>
    intro j ip' h
    rw [List.flatMap_cons] at h ⊢
    by_cases hbx : trimSpace x = ""
    · rw [whitelistIngressBlock_blank sName x hbx] at h ⊢
      rw [List.nil_append] at h ⊢
      exact ih j ip' h
    · rw [whitelistIngressBlock_nonblank sName x hS hbx] at h ⊢
      rw [List.cons_append, List.cons_append, List.nil_append] at h ⊢
      match j with
      | 0 =>
        rw [List.getElem?_cons_zero, Option.some_inj] at h
        have hx : x = ip' := by simpa [setAcceptRule] using h
        subst hx
        simp
      | 1 =>
        exfalso
        rw [List.getElem?_cons_succ, List.getElem?_cons_zero, Option.some_inj] at h
        simp [setAcceptRule, dropInRule] at h
      | Nat.succ (Nat.succ j') =>
        rw [List.getElem?_cons_succ, List.getElem?_cons_succ] at h ⊢
        exact ih j' ip' h

theorem buildIngressRules_whitelist (podIPs : List String) (policy : PolicyConfig)
    (ns name sName : String) (dp : DeploymentPolicy)
    (hfind : findDeploymentPolicy policy ns name = some dp)
    (hwl : dp.IngressFrom ≠ []) :
    buildIngressRules podIPs policy ns name sName
      = podIPs.flatMap (whitelistIngressBlock sName) := by
  unfold buildIngressRules
  rw [hfind]
  have h1 : dp.IngressFrom.isEmpty = false := by
    cases hc : dp.IngressFrom with
    | nil => exact absurd hc hwl
    | cons a l => rfl
  simp [h1]

/-! ## Legacy-mode lemmas (for claim C8) -/

theorem append_pair_getLast (l : List String) (a b : String) :
    (l ++ [ a, b ]).getLast? = some b := by
  rw [show l ++ [ a, b ] = (l ++ [ a ]) ++ [ b ] from by simp]
  exact List.getLast?_concat _

theorem legacyRuleArgs_getLast (policy : PolicyConfig) (ip : String) (r : Rule) :
    (legacyRuleArgs policy ip r).getLast? = some (legacyAction policy r) :=
  append_pair_getLast _ _ _

theorem legacyRuleArgs_mem (podIPs : List String) (policy : PolicyConfig)
    (dp : DeploymentPolicy) (ns name ip : String) (r : Rule)
    (hip : ip ∈ podIPs) (hnb : ¬ trimSpace ip = "") (hr : r ∈ dp.Rules) :
    legacyRuleArgs policy ip r ∈ buildLegacyIngressRules podIPs policy dp ns name := by
  unfold buildLegacyIngressRules
  rw [List.mem_flatMap]
  refine ⟨ip, hip, ?_⟩
  rw [if_neg (by simpa using hnb)]
  exact List.mem_map_of_mem _ hr

theorem buildIngressRules_legacy (podIPs : List String) (policy : PolicyConfig)
    (ns name sName : String) (dp : DeploymentPolicy)
    (hfind : findDeploymentPolicy policy ns name = some dp)
    (hin : dp.IngressFrom = []) (hrules : dp.Rules ≠ []) :
    buildIngressRules podIPs policy ns name sName
      = buildLegacyIngressRules podIPs policy dp ns name := by
  unfold buildIngressRules
  rw [hfind]
  have h1 : dp.IngressFrom.isEmpty = true := by rw [hin]; rfl
  have h2 : dp.Rules.isEmpty = false := by
    cases hc : dp.Rules with
    | nil => exact absurd hc hrules
    | cons a l => rfl
  simp [h1, h2]

/-! ## Claim theorems: C7, C1, C8 -/

/-- Claim C7 (counterexample): `MakeChainName` does not replace every
character outside `[A-Z0-9-]`; on input namespace `a_b`, name `c` the
result is `MS-A_B-C`, which contains `_`. -/
theorem C7_counterexample :
    MakeChainName "MS" "a_b" "c" = "MS-A_B-C"
      ∧ (MakeChainName "MS" "a_b" "c").data.all isChainNameChar = false := by
  exact ⟨by decide, by decide⟩

/-- Claim C7 (amended): the identifier returned by `MakeChainName` with
prefix `MS` begins with `MS-` and has at most 26 characters; the encoder
truncates to 26 characters first and then replaces only `/` and `:` by `-`
(upper-casing last), so other characters outside `[A-Z0-9-]` survive. -/
theorem C7_makeChainName_prefix_and_length (ns name : String) :
    (MakeChainName "MS" ns name).data.length ≤ 26
      ∧ (MakeChainName "MS" ns name).data.take 3 = [ 'M', 'S', '-' ] :=
  ⟨MakeChainName_length_le _ _ _, MakeChainName_MS_take3 ns name⟩

/-- Claim C1: for every workload in whitelist ingress mode (its policy has
non-empty `ingressFrom`) and every non-blank local pod IP, the rule list
produced by `buildIngressRules` (with the SRC set name that `Sync` passes)
contains a set-match ACCEPT rule for that IP immediately followed by
`-d <ip> -j DROP`; moreover every set-match ACCEPT rule in the list is
immediately followed by its DROP, so the IN chain never ends without a
DROP following a pod-IP ACCEPT rule. -/
theorem C1_whitelist_accept_then_drop
    (policy : PolicyConfig) (ns name : String) (dp : DeploymentPolicy)
    (podIPs : List String)
    (hfind : findDeploymentPolicy policy ns name = some dp)
    (hwl : dp.IngressFrom ≠ []) :
    (∀ ip ∈ podIPs, ¬ trimSpace ip = "" →
      ∃ i,
        (buildIngressRules podIPs policy ns name
          (MakeSetName "MS" "SRC" (ns ++ "-" ++ name)))[i]?
          = some (setAcceptRule (MakeSetName "MS" "SRC" (ns ++ "-" ++ name)) ip)
        ∧ (buildIngressRules podIPs policy ns name
          (MakeSetName "MS" "SRC" (ns ++ "-" ++ name)))[i+1]?
          = some (dropInRule ip))
    ∧ (∀ (j : Nat) (ip' : String),
        (buildIngressRules podIPs policy ns name
          (MakeSetName "MS" "SRC" (ns ++ "-" ++ name)))[j]?
          = some (setAcceptRule (MakeSetName "MS" "SRC" (ns ++ "-" ++ name)) ip') →
        (buildIngressRules podIPs policy ns name
          (MakeSetName "MS" "SRC" (ns ++ "-" ++ name)))[j+1]?
          = some (dropInRule ip')) := by
  have hS := MakeSetName_MS_trim_ne "SRC" (ns ++ "-" ++ name)
  rw [buildIngressRules_whitelist podIPs policy ns name _ dp hfind hwl]
  exact ⟨fun ip hip hnb => whitelist_exists_adjacent _ hS podIPs ip hip hnb,
    fun j ip' h => whitelist_accept_implies_drop _ hS podIPs j ip' h⟩

/-- Concrete whitelist policy used by the C1 witness. -/
def polC1 : PolicyConfig :=
  ⟨ "ACCEPT", [ ⟨ "default", "web", [ ⟨ "default", "client" ⟩ ], [], [] ⟩ ] ⟩

theorem C1_witness :
    ∃ i,
      (buildIngressRules [ "10.0.0.5" ] polC1 "default" "web"
        (MakeSetName "MS" "SRC" ("default" ++ "-" ++ "web")))[i]?
        = some (setAcceptRule (MakeSetName "MS" "SRC" ("default" ++ "-" ++ "web")) "10.0.0.5")
      ∧ (buildIngressRules [ "10.0.0.5" ] polC1 "default" "web"
        (MakeSetName "MS" "SRC" ("default" ++ "-" ++ "web")))[i+1]?
        = some (dropInRule "10.0.0.5") :=
  (C1_whitelist_accept_then_drop polC1 "default" "web"
    ⟨ "default", "web", [ ⟨ "default", "client" ⟩ ], [], [] ⟩ [ "10.0.0.5" ]
    (by decide) (by decide)).1 "10.0.0.5" (by decide) (by decide)

/-- Claim C8 (counterexample): a legacy rule whose action and whose
policy `defaultAction` both normalize to the empty string is NOT skipped:
for pod IP `10.0.0.5` the emitter still outputs a rule, namely
`-d 10.0.0.5 -j` followed by the empty action. -/
theorem C8_counterexample :
    normalizeAction "x" = "" ∧ normalizeAction "" = ""
      ∧ buildIngressRules [ "10.0.0.5" ]
          ⟨ "", [ ⟨ "default", "web", [], [], [ ⟨ "x", "", "", 0 ⟩ ] ⟩ ] ⟩
          "default" "web" ""
        = [ [ "-d", "10.0.0.5", "-j", "" ] ] := by
  exact ⟨by decide, by decide, by decide⟩

/-- Claim C8 (amended): in legacy mode a rule whose action and whose
policy `defaultAction` both normalize to empty is not skipped; for every
non-blank pod IP it still contributes one emitted rule, which ends with
`-j` followed by the empty action string. -/
theorem C8_empty_action_rule_emitted
    (podIPs : List String) (policy : PolicyConfig) (dp : DeploymentPolicy)
    (ns name sName ip : String) (r : Rule)
    (hfind : findDeploymentPolicy policy ns name = some dp)
    (hin : dp.IngressFrom = []) (hrules : dp.Rules ≠ [])
    (hip : ip ∈ podIPs) (hnb : ¬ trimSpace ip = "") (hr : r ∈ dp.Rules)
    (hact : normalizeAction r.Action = "")
    (hdef : normalizeAction policy.DefaultAction = "") :
    legacyRuleArgs policy ip r ∈ buildIngressRules podIPs policy ns name sName
      ∧ (legacyRuleArgs policy ip r).getLast? = some "" := by
  constructor
  · rw [buildIngressRules_legacy podIPs policy ns name sName dp hfind hin hrules]
    exact legacyRuleArgs_mem podIPs policy dp ns name ip r hip hnb hr
  · rw [legacyRuleArgs_getLast]
    unfold legacyAction
    rw [hact, hdef]
    rfl

theorem C8_witness :
    legacyRuleArgs ⟨ "", [ ⟨ "default", "web", [], [], [ ⟨ "x", "", "", 0 ⟩ ] ⟩ ] ⟩
        "10.0.0.5" ⟨ "x", "", "", 0 ⟩
      ∈ buildIngressRules [ "10.0.0.5" ]
          ⟨ "", [ ⟨ "default", "web", [], [], [ ⟨ "x", "", "", 0 ⟩ ] ⟩ ] ⟩
          "default" "web" ""
    ∧ (legacyRuleArgs ⟨ "", [ ⟨ "default", "web", [], [], [ ⟨ "x", "", "", 0 ⟩ ] ⟩ ] ⟩
        "10.0.0.5" ⟨ "x", "", "", 0 ⟩).getLast? = some "" :=
  C8_empty_action_rule_emitted [ "10.0.0.5" ]
    ⟨ "", [ ⟨ "default", "web", [], [], [ ⟨ "x", "", "", 0 ⟩ ] ⟩ ] ⟩
    ⟨ "default", "web", [], [], [ ⟨ "x", "", "", 0 ⟩ ] ⟩ "default" "web" "" "10.0.0.5"
    ⟨ "x", "", "", 0 ⟩ (by decide) (by decide) (by decide) (by decide) (by decide)
    (by decide) (by decide) (by decide)

/-! ## SyncRules lemmas (for claim C10 and the root-chain rebuild) -/

theorem updateChains_self (f : String → Option (List (List String))) (c : String)
    (rs : List (List String)) : updateChains f c rs c = some rs := by
  unfold updateChains
  simp

theorem updateChains_other (f : String → Option (List (List String))) (c n : String)
    (rs : List (List String)) (h : n ≠ c) : updateChains f c rs n = f n := by
  unfold updateChains
  simp [h]

theorem updateChains_idem (f : String → Option (List (List String))) (c : String)
    (rs1 rs2 : List (List String)) :
    updateChains (updateChains f c rs1) c rs2 = updateChains f c rs2 := by
  funext n
  unfold updateChains
  by_cases h : n = c <;> simp [h]

theorem updateChains_of_eq (f : String → Option (List (List String))) (c : String)
    (rs : List (List String)) (h : f c = some rs) : updateChains f c rs = f := by
  funext n
  unfold updateChains
  by_cases hn : n = c
  · subst hn
    simp [h]
  · simp [hn]

theorem syncRulesAppendLoop_ok (o : FailOracle) (c : String) :
    ∀ (rules : List (List String)) (st : FwState) (cur : List (List String)),
      st.chains c = some cur →
      (∀ r ∈ rules, o.syncRulesAppendFails c r = false) →
      syncRulesAppendLoop o c rules st
        = ( Except.ok true, { st with chains := updateChains st.chains c (cur ++ rules) } )
  | [], st, cur, hcur, _ => by
    unfold syncRulesAppendLoop
    rw [List.append_nil, updateChains_of_eq st.chains c cur hcur]
  | r :: rest, st, cur, hcur, hok => by
    unfold syncRulesAppendLoop
    rw [hok r (List.mem_cons_self r rest)]
    simp only [Bool.false_eq_true, if_false]
    rw [syncRulesAppendLoop_ok o c rest _ (cur ++ [ r ])
      (by rw [hcur]; exact updateChains_self _ _ _)
      (fun r' hr' => hok r' (List.mem_cons_of_mem r hr'))]
    rw [hcur]
    simp [updateChains_idem, List.append_assoc]

theorem syncRulesAppendLoop_fail (o : FailOracle) (c : String)
    (r : List String) (post : List (List String)) (hr : o.syncRulesAppendFails c r = true) :
    ∀ (pre : List (List String)) (st : FwState) (cur : List (List String)),
      st.chains c = some cur →
      (∀ r' ∈ pre, o.syncRulesAppendFails c r' = false) →
      syncRulesAppendLoop o c (pre ++ r :: post) st
        = ( Except.error (), { st with chains := updateChains st.chains c (cur ++ pre) } )
  | [], st, cur, hcur, _ => by
    rw [List.nil_append]
    unfold syncRulesAppendLoop
    rw [hr]
    rw [List.append_nil, updateChains_of_eq st.chains c cur hcur]
    rfl
  | r' :: pre', st, cur, hcur, hok => by
    rw [List.cons_append]
    unfold syncRulesAppendLoop
    rw [hok r' (List.mem_cons_self r' pre')]
    simp only [Bool.false_eq_true, if_false]
    rw [syncRulesAppendLoop_fail o c r post hr pre' _ (cur ++ [ r' ])
      (by rw [hcur]; exact updateChains_self _ _ _)
      (fun x hx => hok x (List.mem_cons_of_mem r' hx))]
    rw [hcur]
    simp [updateChains_idem, List.append_assoc]

theorem SyncRules_ok (o : FailOracle) (st : FwState) (c : String)
    (rules : List (List String))
    (hf : o.syncRulesFlushFails c = false)
    (ha : ∀ r ∈ rules, o.syncRulesAppendFails c r = false) :
    SyncRules o st c rules
      = ( Except.ok true, { st with chains := updateChains st.chains c rules } ) := by
  unfold SyncRules
  rw [hf]
  simp only [Bool.false_eq_true, if_false]
  rw [syncRulesAppendLoop_ok o c rules _ [] (updateChains_self _ _ _) ha]
  simp [updateChains_idem]

theorem SyncRules_fail (o : FailOracle) (st : FwState) (c : String)
    (pre : List (List String)) (r : List String) (post : List (List String))
    (hf : o.syncRulesFlushFails c = false)
    (hpre : ∀ r' ∈ pre, o.syncRulesAppendFails c r' = false)
    (hr : o.syncRulesAppendFails c r = true) :
    SyncRules o st c (pre ++ r :: post)
      = ( Except.error (), { st with chains := updateChains st.chains c pre } ) := by
  unfold SyncRules
  rw [hf]
  simp only [Bool.false_eq_true, if_false]
  rw [syncRulesAppendLoop_fail o c r post hr pre _ [] (updateChains_self _ _ _) hpre]
  simp [updateChains_idem]

/-- Claim C10: `SyncRules` first flushes the chain, then appends the rules
in order.  On full success it returns `changed = true` with the chain
holding exactly the given rules; if the append of a rule fails after the
successful appends of `pre`, it returns the error (Go: `false, err`) and
leaves the chain holding exactly `pre` — the pre-existing contents are not
restored and no rollback occurs. -/
theorem C10_syncRules_flush_then_append (o : FailOracle) (st : FwState) (chain : String) :
    (∀ rules, o.syncRulesFlushFails chain = false →
      (∀ r ∈ rules, o.syncRulesAppendFails chain r = false) →
      SyncRules o st chain rules
        = ( Except.ok true, { st with chains := updateChains st.chains chain rules } ))
    ∧ (∀ (pre : List (List String)) (r : List String) (post : List (List String)),
      o.syncRulesFlushFails chain = false →
      (∀ r' ∈ pre, o.syncRulesAppendFails chain r' = false) →
      o.syncRulesAppendFails chain r = true →
      SyncRules o st chain (pre ++ r :: post)
        = ( Except.error (), { st with chains := updateChains st.chains chain pre } )) :=
  ⟨fun rules hf ha => SyncRules_ok o st chain rules hf ha,
   fun pre r post hf hp hr => SyncRules_fail o st chain pre r post hf hp hr⟩

/-- All-clear failure oracle: no underlying invocation fails. -/
def noFailOracle : FailOracle :=
  ⟨ fun _ => false, fun _ => false, fun _ => false, fun _ _ => false, fun _ => false ⟩

/-- Empty kernel state: no custom chains, empty FORWARD chain, no sets. -/
def emptyFw : FwState :=
  ⟨ fun _ => none, [], fun _ => none ⟩

/-- Oracle whose rule appends fail exactly on the rule `[-bad]`. -/
def failBadRuleOracle : FailOracle :=
  ⟨ fun _ => false, fun _ => false, fun _ => false, fun _ r => r == [ "-bad" ], fun _ => false ⟩

theorem C10_witness :
    SyncRules failBadRuleOracle emptyFw "MS-X"
        ([ [ "-d", "10.0.0.5" ] ] ++ [ "-bad" ] :: [ [ "-d", "10.0.0.6" ] ])
      = ( Except.error (),
          { emptyFw with
            chains := updateChains emptyFw.chains "MS-X" [ [ "-d", "10.0.0.5" ] ] } ) :=
  (C10_syncRules_flush_then_append failBadRuleOracle emptyFw "MS-X").2
    [ [ "-d", "10.0.0.5" ] ] [ "-bad" ] [ [ "-d", "10.0.0.6" ] ]
    (by decide) (by decide) (by decide)

/-! ## Preservation lemmas for the driver operations -/

theorem EnsureChain_forward (o : FailOracle) (st : FwState) (c : String) :
    (EnsureChain o st c).2.forward = st.forward := by
  unfold EnsureChain
  split
  · rfl
  · split
    · rfl
    · rfl

theorem EnsureChain_ipsets (o : FailOracle) (st : FwState) (c : String) :
    (EnsureChain o st c).2.ipsets = st.ipsets := by
  unfold EnsureChain
  split
  · rfl
  · split
    · rfl
    · rfl

theorem EnsureChain_chains_other (o : FailOracle) (st : FwState) (c n : String)
    (h : n ≠ c) : (EnsureChain o st c).2.chains n = st.chains n := by
  unfold EnsureChain
  split
  · rfl
  · split
    · rfl
    · exact updateChains_other st.chains c n [] h

theorem EnsureJump_chains (o : FailOracle) (st : FwState) (root pos : String) :
    (EnsureJump o st root pos).2.chains = st.chains := by
  unfold EnsureJump
  split
  · split
    · rfl
    · rfl
  · split
    · rfl
    · split
      · rfl
      · rfl

theorem SyncIPSet_chains (o : FailOracle) (st : FwState) (s : String) (ips : List String) :
    (SyncIPSet o st s ips).2.chains = st.chains := by
  unfold SyncIPSet
  split
  · rfl
  · rfl

theorem SyncIPSet_forward (o : FailOracle) (st : FwState) (s : String) (ips : List String) :
    (SyncIPSet o st s ips).2.forward = st.forward := by
  unfold SyncIPSet
  split
  · rfl
  · rfl

theorem syncRulesAppendLoop_forward (o : FailOracle) (c : String) :
    ∀ (rules : List (List String)) (st : FwState),
      (syncRulesAppendLoop o c rules st).2.forward = st.forward
  | [], st => rfl
  | r :: rest, st => by
    unfold syncRulesAppendLoop
    split
    · rfl
    · exact syncRulesAppendLoop_forward o c rest _

theorem syncRulesAppendLoop_chains_other (o : FailOracle) (c n : String) (h : n ≠ c) :
    ∀ (rules : List (List String)) (st : FwState),
      (syncRulesAppendLoop o c rules st).2.chains n = st.chains n
  | [], st => rfl
  | r :: rest, st => by
    unfold syncRulesAppendLoop
    split
    · rfl
    · rw [syncRulesAppendLoop_chains_other o c n h rest _]
      exact updateChains_other _ _ _ _ h

theorem SyncRules_forward (o : FailOracle) (st : FwState) (c : String)
    (rules : List (List String)) : (SyncRules o st c rules).2.forward = st.forward := by
  unfold SyncRules
  split
  · rfl
  · exact syncRulesAppendLoop_forward o c rules _

theorem SyncRules_chains_other (o : FailOracle) (st : FwState) (c n : String)
    (rules : List (List String)) (h : n ≠ c) :
    (SyncRules o st c rules).2.chains n = st.chains n := by
  unfold SyncRules
  split
  · rfl
  · rw [syncRulesAppendLoop_chains_other o c n h rules _]
    exact updateChains_other _ _ _ _ h

theorem ite_SyncIPSet_chains (o : FailOracle) (b : Bool) (st : FwState) (s : String)
    (ips : List String) :
    (if b then (SyncIPSet o st s ips).2 else st).chains = st.chains := by
  split
  · exact SyncIPSet_chains o st s ips
  · rfl

theorem ite_SyncIPSet_forward (o : FailOracle) (b : Bool) (st : FwState) (s : String)
    (ips : List String) :
    (if b then (SyncIPSet o st s ips).2 else st).forward = st.forward := by
  split
  · exact SyncIPSet_forward o st s ips
  · rfl

theorem perWorkload_forward (o : FailOracle) (policy : PolicyConfig)
    (allIPs : DeploymentKey → List String) (st : FwState) (w : DeploymentView)
    (localIPs : List String) :
    (perWorkload o policy allIPs st w localIPs).forward = st.forward := by
  unfold perWorkload
  dsimp only
  simp only [apply_ite FwState.forward, EnsureChain_forward, SyncIPSet_forward,
    SyncRules_forward, ite_self]

theorem perWorkload_chains_other (o : FailOracle) (policy : PolicyConfig)
    (allIPs : DeploymentKey → List String) (st : FwState) (w : DeploymentView)
    (localIPs : List String) (n : String)
    (hIn : n ≠ chainInNameOf w) (hOut : n ≠ chainOutNameOf w) :
    (perWorkload o policy allIPs st w localIPs).chains n = st.chains n := by
  unfold perWorkload
  dsimp only
  simp [apply_ite (fun s : FwState => s.chains n), EnsureChain_chains_other,
    SyncRules_chains_other, SyncIPSet_chains, ite_self, hIn, hOut]

theorem foldl_perWorkload_forward (o : FailOracle) (policy : PolicyConfig)
    (allIPs : DeploymentKey → List String) (pods : List PodView) (node : String) :
    ∀ (lw : List DeploymentView) (st : FwState),
      (lw.foldl (fun s w => perWorkload o policy allIPs s w (localIPsOf pods node w)) st).forward
        = st.forward
  | [], st => rfl
  | w :: rest, st => by
    rw [List.foldl_cons]
    rw [foldl_perWorkload_forward o policy allIPs pods node rest _]
    exact perWorkload_forward o policy allIPs st w _

theorem foldl_perWorkload_chains_other (o : FailOracle) (policy : PolicyConfig)
    (allIPs : DeploymentKey → List String) (pods : List PodView) (node : String) (n : String) :
    ∀ (lw : List DeploymentView) (st : FwState),
      (∀ w ∈ lw, n ≠ chainInNameOf w ∧ n ≠ chainOutNameOf w) →
      (lw.foldl (fun s w => perWorkload o policy allIPs s w (localIPsOf pods node w)) st).chains n
        = st.chains n
  | [], st, _ => rfl
  | w :: rest, st, hfresh => by
    rw [List.foldl_cons]
    rw [foldl_perWorkload_chains_other o policy allIPs pods node n rest _
      (fun x hx => hfresh x (List.mem_cons_of_mem w hx))]
    rcases hfresh w (List.mem_cons_self w rest) with ⟨h1, h2⟩
    exact perWorkload_chains_other o policy allIPs st w _ n h1 h2

/-! ## EnsureJump and the root stage -/

theorem EnsureJump_insert_ok (o : FailOracle) (st : FwState) (root : String)
    (ho : o.ensureJumpFails root = false) :
    EnsureJump o st root "insert"
      = ( true, { st with forward := jumpRule root :: st.forward.erase (jumpRule root) } ) := by
  unfold EnsureJump
  rw [if_pos (by decide), ho]
  simp

theorem EnsureJump_insert_of_fst (o : FailOracle) (st : FwState) (root : String)
    (h : (EnsureJump o st root "insert").1 = true) :
    (EnsureJump o st root "insert").2.forward
      = jumpRule root :: st.forward.erase (jumpRule root) := by
  by_cases ho : o.ensureJumpFails root
  · exfalso
    unfold EnsureJump at h
    rw [if_pos (by decide), ho] at h
    simp at h
  · rw [EnsureJump_insert_ok o st root (by simpa using ho)]

theorem EnsureJump_append_of_fst (o : FailOracle) (st : FwState) (root : String)
    (hnm : jumpRule root ∉ st.forward)
    (h : (EnsureJump o st root "append").1 = true) :
    (EnsureJump o st root "append").2.forward = st.forward ++ [ jumpRule root ] := by
  have hc : st.forward.contains (jumpRule root) = false := by simpa using hnm
  by_cases ho : o.ensureJumpFails root
  · exfalso
    unfold EnsureJump at h
    rw [if_neg (by decide), hc, ho] at h
    simp at h
  · unfold EnsureJump
    rw [if_neg (by decide), hc]
    have ho' : o.ensureJumpFails root = false := by simpa using ho
    rw [ho']
    simp

theorem jumpRule_in_ne_out : jumpRule rootChainInName ≠ jumpRule rootChainOutName := by
  decide

theorem syncRootStage_insert_forward (o : FailOracle) (st st' : FwState)
    (h : syncRootStage o st "insert" = some st') :
    st'.forward = jumpRule rootChainOutName :: jumpRule rootChainInName ::
      ((st.forward.erase (jumpRule rootChainInName)).erase (jumpRule rootChainOutName)) := by
  unfold syncRootStage at h
  dsimp only at h
  split at h
  · exact absurd h (by simp)
  · split at h
    · exact absurd h (by simp)
    · split at h
      · split at h
        · exact absurd h (by simp)
        · split at h
          · exact absurd h (by simp)
          · rename_i hc1 hc2 hpos hj1 hj2
            have hst' := Option.some_inj.mp h
            subst hst'
            have hj1' : (EnsureJump o (EnsureChain o (EnsureChain o st rootChainOutName).2
                rootChainInName).2 rootChainInName "insert").1 = true := by
              simpa using hj1
            have hj2' : (EnsureJump o (EnsureJump o (EnsureChain o (EnsureChain o st
                rootChainOutName).2 rootChainInName).2 rootChainInName "insert").2
                rootChainOutName "insert").1 = true := by
              simpa using hj2
            rw [EnsureJump_insert_of_fst _ _ _ hj2']
            rw [EnsureJump_insert_of_fst _ _ _ hj1']
            rw [EnsureChain_forward, EnsureChain_forward]
            rw [List.erase_cons]
            rw [if_neg (by decide)]
      · rename_i hc1 hc2 hpos
        exact absurd (by decide) hpos

theorem syncRootStage_append_forward (o : FailOracle) (st st' : FwState)
    (hni : jumpRule rootChainInName ∉ st.forward)
    (hno : jumpRule rootChainOutName ∉ st.forward)
    (h : syncRootStage o st "append" = some st') :
    st'.forward = st.forward ++ [ jumpRule rootChainOutName, jumpRule rootChainInName ] := by
  unfold syncRootStage at h
  dsimp only at h
  split at h
  · exact absurd h (by simp)
  · split at h
    · exact absurd h (by simp)
    · split at h
      · rename_i hc1 hc2 hpos
        exact absurd hpos (by decide)
      · split at h
        · exact absurd h (by simp)
        · split at h
          · exact absurd h (by simp)
          · rename_i hc1 hc2 hpos hj1 hj2
            have hst' := Option.some_inj.mp h
            subst hst'
            have hfw2 : (EnsureChain o (EnsureChain o st rootChainOutName).2
                rootChainInName).2.forward = st.forward := by
              rw [EnsureChain_forward, EnsureChain_forward]
            have hj1' : (EnsureJump o (EnsureChain o (EnsureChain o st rootChainOutName).2
                rootChainInName).2 rootChainOutName "append").1 = true := by
              simpa using hj1
            have hj2' : (EnsureJump o (EnsureJump o (EnsureChain o (EnsureChain o st
                rootChainOutName).2 rootChainInName).2 rootChainOutName "append").2
                rootChainInName "append").1 = true := by
              simpa using hj2
            have hfw3 : (EnsureJump o (EnsureChain o (EnsureChain o st rootChainOutName).2
                rootChainInName).2 rootChainOutName "append").2.forward
                = st.forward ++ [ jumpRule rootChainOutName ] := by
              rw [EnsureJump_append_of_fst _ _ _ (by rw [hfw2]; exact hno) hj1', hfw2]
            have hnm2 : jumpRule rootChainInName ∉ (EnsureJump o (EnsureChain o (EnsureChain o st
                rootChainOutName).2 rootChainInName).2 rootChainOutName "append").2.forward := by
              rw [hfw3]
              intro hmem
              rcases List.mem_append.mp hmem with hm | hm
              · exact hni hm
              · exact jumpRule_in_ne_out (List.mem_singleton.mp hm)
            rw [EnsureJump_append_of_fst _ _ _ hnm2 hj2', hfw3]
            rw [List.append_assoc]
            rfl

theorem syncRootStage_chains_other (o : FailOracle) (st st' : FwState) (pos n : String)
    (hin : n ≠ rootChainInName) (hout : n ≠ rootChainOutName)
    (h : syncRootStage o st pos = some st') :
    st'.chains n = st.chains n := by
  unfold syncRootStage at h
  dsimp only at h
  split at h
  · exact absurd h (by simp)
  · split at h
    · exact absurd h (by simp)
    · split at h
      · split at h
        · exact absurd h (by simp)
        · split at h
          · exact absurd h (by simp)
          · have hst' := Option.some_inj.mp h
            subst hst'
            rw [EnsureJump_chains, EnsureJump_chains,
              EnsureChain_chains_other _ _ _ _ hin, EnsureChain_chains_other _ _ _ _ hout]
      · split at h
        · exact absurd h (by simp)
        · split at h
          · exact absurd h (by simp)
          · have hst' := Option.some_inj.mp h
            subst hst'
            rw [EnsureJump_chains, EnsureJump_chains,
              EnsureChain_chains_other _ _ _ _ hin, EnsureChain_chains_other _ _ _ _ hout]

theorem rootIn_ne_rootOut : rootChainInName ≠ rootChainOutName := by decide

/-! ## syncWorkloadsAndRoots -/

theorem syncWorkloadsAndRoots_root_chains (o : FailOracle) (policy : PolicyConfig)
    (deps : List DeploymentView) (pods : List PodView) (node : String) (st1 : FwState)
    (hfIn : o.syncRulesFlushFails rootChainInName = false)
    (haIn : ∀ r ∈ rootRulesInOf deps pods node,
      o.syncRulesAppendFails rootChainInName r = false)
    (hfOut : o.syncRulesFlushFails rootChainOutName = false)
    (haOut : ∀ r ∈ rootRulesOutOf deps pods node,
      o.syncRulesAppendFails rootChainOutName r = false) :
    (syncWorkloadsAndRoots o policy deps pods node st1).chains rootChainInName
        = some (rootRulesInOf deps pods node)
    ∧ (syncWorkloadsAndRoots o policy deps pods node st1).chains rootChainOutName
        = some (rootRulesOutOf deps pods node) := by
  unfold syncWorkloadsAndRoots
  dsimp only
  rw [SyncRules_ok _ _ _ _ hfOut haOut]
  rw [SyncRules_ok _ _ _ _ hfIn haIn]
  dsimp only
  constructor
  · rw [updateChains_other _ _ _ _ rootIn_ne_rootOut]
    exact updateChains_self _ _ _
  · exact updateChains_self _ _ _

theorem syncWorkloadsAndRoots_forward (o : FailOracle) (policy : PolicyConfig)
    (deps : List DeploymentView) (pods : List PodView) (node : String) (st1 : FwState) :
    (syncWorkloadsAndRoots o policy deps pods node st1).forward = st1.forward := by
  unfold syncWorkloadsAndRoots
  dsimp only
  rw [SyncRules_forward, SyncRules_forward]
  exact foldl_perWorkload_forward o policy _ pods node _ st1

theorem syncWorkloadsAndRoots_chains_other (o : FailOracle) (policy : PolicyConfig)
    (deps : List DeploymentView) (pods : List PodView) (node : String) (st1 : FwState)
    (n : String) (hin : n ≠ rootChainInName) (hout : n ≠ rootChainOutName)
    (hfresh : ∀ w ∈ localWorkloads deps pods node,
      n ≠ chainInNameOf w ∧ n ≠ chainOutNameOf w) :
    (syncWorkloadsAndRoots o policy deps pods node st1).chains n = st1.chains n := by
  unfold syncWorkloadsAndRoots
  dsimp only
  rw [SyncRules_chains_other _ _ _ _ _ hout, SyncRules_chains_other _ _ _ _ _ hin]
  exact foldl_perWorkload_chains_other o policy _ pods node n _ st1 hfresh

/-! ## Sync-level lemmas -/

theorem Sync_eq_some (o : FailOracle) (st : FwState) (deps : List DeploymentView)
    (pods : List PodView) (node : String) (policy : PolicyConfig) (pos : String)
    (st1 : FwState) (hroot : syncRootStage o st pos = some st1) :
    Sync o st deps pods node policy pos
      = some (syncWorkloadsAndRoots o policy deps pods node st1) := by
  unfold Sync
  rw [hroot]
  rfl

theorem Sync_isSome_elim (o : FailOracle) (st : FwState) (deps : List DeploymentView)
    (pods : List PodView) (node : String) (policy : PolicyConfig) (pos : String)
    (hsome : (Sync o st deps pods node policy pos).isSome = true) :
    ∃ st1, syncRootStage o st pos = some st1 := by
  unfold Sync at hsome
  cases hc : syncRootStage o st pos with
  | none => rw [hc] at hsome; simp at hsome
  | some st1 => exact ⟨st1, rfl⟩

theorem jump_mem_rootRulesIn (deps : List DeploymentView) (pods : List PodView)
    (node : String) (w : DeploymentView) (hw : w ∈ localWorkloads deps pods node) :
    jumpRule (chainInNameOf w) ∈ rootRulesInOf deps pods node := by
  unfold rootRulesInOf
  apply List.mem_cons_of_mem
  apply List.mem_map_of_mem
  unfold sortStrings
  rw [List.mem_insertionSort]
  exact List.mem_map_of_mem _ hw

theorem jump_mem_rootRulesOut (deps : List DeploymentView) (pods : List PodView)
    (node : String) (w : DeploymentView) (hw : w ∈ localWorkloads deps pods node) :
    jumpRule (chainOutNameOf w) ∈ rootRulesOutOf deps pods node := by
  unfold rootRulesOutOf
  apply List.mem_cons_of_mem
  apply List.mem_map_of_mem
  unfold sortStrings
  rw [List.mem_insertionSort]
  exact List.mem_map_of_mem _ hw

/-! ## Claim theorems: C2, C3, C4, C5 -/

/-- Workload used by the concrete `Sync` scenarios. -/
def webDep : DeploymentView := ⟨ "default", "web", [ ( "app", "web" ) ] ⟩

/-- A local pod of `webDep` with an IP. -/
def webPod : PodView := ⟨ [ ( "app", "web" ) ], "10.0.0.5", "node1" ⟩

/-- A local pod of `webDep` whose IP string is empty (not yet assigned). -/
def webPodNoIP : PodView := ⟨ [ ( "app", "web" ) ], "", "node1" ⟩

/-- The empty policy (default ACCEPT, no per-deployment entries). -/
def emptyPolicy : PolicyConfig := ⟨ "ACCEPT", [] ⟩

/-- Oracle that fails exactly the creation of `webDep`'s IN chain. -/
def failWebInChainOracle : FailOracle :=
  ⟨ fun c => c == chainInNameOf webDep, fun _ => false, fun _ => false,
    fun _ _ => false, fun _ => false ⟩

/-- Forwarding chain that already holds the jump to ROOT-IN. -/
def fwWithInJump : FwState :=
  ⟨ fun _ => none, [ jumpRule rootChainInName ], fun _ => none ⟩

/-- Claim C2 (counterexample): with the creation of the workload's IN
chain failing, `Sync` still succeeds and the rebuilt ROOT-IN chain still
contains the jump to that workload's IN chain (the chain itself was never
created), contradicting the claim that the root chains contain no jump to
a failed workload's chains. -/
theorem C2_counterexample :
    failWebInChainOracle.ensureChainFails (chainInNameOf webDep) = true
    ∧ (Sync failWebInChainOracle emptyFw [ webDep ] [ webPod ] "node1" emptyPolicy
        "insert").map (fun s => s.chains rootChainInName)
      = some (some [ establishedRule, jumpRule (chainInNameOf webDep) ])
    ∧ (Sync failWebInChainOracle emptyFw [ webDep ] [ webPod ] "node1" emptyPolicy
        "insert").map (fun s => s.chains (chainInNameOf webDep)) = some none :=
  ⟨by decide, by decide, by decide⟩

/-- Claim C2 (amended): once the root stage has succeeded, `Sync` reports
success whatever the per-workload failures (the oracle is arbitrary on
them; chain-creation and rule-sync errors skip the workload's remaining
steps, IP-set errors are only logged), and the rebuilt root chains contain
a jump to the chains of EVERY local workload, the failed ones included,
because the desired chain names are recorded before the fallible steps. -/
theorem C2_sync_continues_and_roots_jump (o : FailOracle) (st : FwState)
    (deps : List DeploymentView) (pods : List PodView) (node : String)
    (policy : PolicyConfig) (pos : String) (st1 : FwState)
    (hroot : syncRootStage o st pos = some st1)
    (hfIn : o.syncRulesFlushFails rootChainInName = false)
    (haIn : ∀ r ∈ rootRulesInOf deps pods node,
      o.syncRulesAppendFails rootChainInName r = false)
    (hfOut : o.syncRulesFlushFails rootChainOutName = false)
    (haOut : ∀ r ∈ rootRulesOutOf deps pods node,
      o.syncRulesAppendFails rootChainOutName r = false) :
    (Sync o st deps pods node policy pos).map (fun s => s.chains rootChainInName)
        = some (some (rootRulesInOf deps pods node))
    ∧ (Sync o st deps pods node policy pos).map (fun s => s.chains rootChainOutName)
        = some (some (rootRulesOutOf deps pods node))
    ∧ ∀ w ∈ localWorkloads deps pods node,
        jumpRule (chainInNameOf w) ∈ rootRulesInOf deps pods node
        ∧ jumpRule (chainOutNameOf w) ∈ rootRulesOutOf deps pods node := by
  rw [Sync_eq_some o st deps pods node policy pos st1 hroot]
  simp only [Option.map_some']
  obtain ⟨h1, h2⟩ := syncWorkloadsAndRoots_root_chains o policy deps pods node st1
    hfIn haIn hfOut haOut
  exact ⟨congrArg some h1, congrArg some h2,
    fun w hw => ⟨jump_mem_rootRulesIn deps pods node w hw,
      jump_mem_rootRulesOut deps pods node w hw⟩⟩

theorem C2_witness :
    (Sync noFailOracle emptyFw [ webDep ] [ webPod ] "node1" emptyPolicy "insert").map
        (fun s => s.chains rootChainInName)
      = some (some (rootRulesInOf [ webDep ] [ webPod ] "node1"))
    ∧ (Sync noFailOracle emptyFw [ webDep ] [ webPod ] "node1" emptyPolicy "insert").map
        (fun s => s.chains rootChainOutName)
      = some (some (rootRulesOutOf [ webDep ] [ webPod ] "node1"))
    ∧ ∀ w ∈ localWorkloads [ webDep ] [ webPod ] "node1",
        jumpRule (chainInNameOf w) ∈ rootRulesInOf [ webDep ] [ webPod ] "node1"
        ∧ jumpRule (chainOutNameOf w) ∈ rootRulesOutOf [ webDep ] [ webPod ] "node1" := by
  cases hroot : syncRootStage noFailOracle emptyFw "insert" with
  | none =>
    have hs : (syncRootStage noFailOracle emptyFw "insert").isSome = true := by decide
    rw [hroot] at hs
    exact absurd hs (by simp)
  | some st1 =>
    exact C2_sync_continues_and_roots_jump noFailOracle emptyFw [ webDep ] [ webPod ]
      "node1" emptyPolicy "insert" st1 hroot (by decide) (by decide) (by decide) (by decide)

/-- Claim C3 (counterexample): a matching local pod whose IP string is
empty still counts: the workload has zero non-empty local pod IPs, yet
both of its chains are created (with empty rule lists) by a successful
`Sync`. -/
theorem C3_counterexample :
    localIPsOf [ webPodNoIP ] "node1" webDep ≠ []
    ∧ (∀ ip ∈ localIPsOf [ webPodNoIP ] "node1" webDep, trimSpace ip = "")
    ∧ (Sync noFailOracle emptyFw [ webDep ] [ webPodNoIP ] "node1" emptyPolicy
        "insert").map (fun s => s.chains (chainInNameOf webDep)) = some (some [])
    ∧ (Sync noFailOracle emptyFw [ webDep ] [ webPodNoIP ] "node1" emptyPolicy
        "insert").map (fun s => s.chains (chainOutNameOf webDep)) = some (some []) :=
  ⟨by decide, by decide, by decide, by decide⟩

/-- Claim C3 (amended): a workload with zero matching local pods (the
stronger premise the code actually tests; pods with empty IP strings still
count as local pods) gets no IN or OUT chain this cycle: when its chain
names are not aliased by another local workload's chain names and its
chains are absent initially, they are still absent after a successful
`Sync`. -/
theorem C3_no_local_pod_no_chain (o : FailOracle) (st : FwState)
    (deps : List DeploymentView) (pods : List PodView) (node : String)
    (policy : PolicyConfig) (pos : String) (d : DeploymentView)
    (hsome : (Sync o st deps pods node policy pos).isSome = true)
    (hd : d ∈ deps)
    (hnolocal : localIPsOf pods node d = [])
    (hfresh : ∀ w ∈ localWorkloads deps pods node,
      (chainInNameOf w ≠ chainInNameOf d ∧ chainOutNameOf w ≠ chainInNameOf d)
      ∧ (chainInNameOf w ≠ chainOutNameOf d ∧ chainOutNameOf w ≠ chainOutNameOf d))
    (habsIn : st.chains (chainInNameOf d) = none)
    (habsOut : st.chains (chainOutNameOf d) = none) :
    (Sync o st deps pods node policy pos).map (fun s => s.chains (chainInNameOf d))
        = some none
    ∧ (Sync o st deps pods node policy pos).map (fun s => s.chains (chainOutNameOf d))
        = some none := by
  obtain ⟨st1, hroot⟩ := Sync_isSome_elim o st deps pods node policy pos hsome
  rw [Sync_eq_some o st deps pods node policy pos st1 hroot]
  simp only [Option.map_some']
  constructor
  · apply congrArg some
    rw [syncWorkloadsAndRoots_chains_other o policy deps pods node st1 _
      (chainInNameOf_ne_rootIn d) (chainInNameOf_ne_rootOut d)
      (fun w hw => ⟨Ne.symm (hfresh w hw).1.1, Ne.symm (hfresh w hw).1.2⟩)]
    rw [syncRootStage_chains_other o st st1 pos _
      (chainInNameOf_ne_rootIn d) (chainInNameOf_ne_rootOut d) hroot]
    exact habsIn
  · apply congrArg some
    rw [syncWorkloadsAndRoots_chains_other o policy deps pods node st1 _
      (chainOutNameOf_ne_rootIn d) (chainOutNameOf_ne_rootOut d)
      (fun w hw => ⟨Ne.symm (hfresh w hw).2.1, Ne.symm (hfresh w hw).2.2⟩)]
    rw [syncRootStage_chains_other o st st1 pos _
      (chainOutNameOf_ne_rootIn d) (chainOutNameOf_ne_rootOut d) hroot]
    exact habsOut

theorem C3_witness :
    (Sync noFailOracle emptyFw [ webDep ] [] "node1" emptyPolicy "insert").map
        (fun s => s.chains (chainInNameOf webDep)) = some none
    ∧ (Sync noFailOracle emptyFw [ webDep ] [] "node1" emptyPolicy "insert").map
        (fun s => s.chains (chainOutNameOf webDep)) = some none :=
  C3_no_local_pod_no_chain noFailOracle emptyFw [ webDep ] [] "node1" emptyPolicy
    "insert" webDep (by decide) (by decide) (by decide) (by decide) rfl rfl

/-- Claim C4: in every successful cycle whose root-chain rule syncs do not
fail, each root chain is rewritten to the conntrack ESTABLISHED,RELATED
ACCEPT rule followed by exactly one jump per workload chain desired this
cycle, in lexicographic order of the chain identifier. -/
theorem C4_root_chains_layout (o : FailOracle) (st : FwState)
    (deps : List DeploymentView) (pods : List PodView) (node : String)
    (policy : PolicyConfig) (pos : String)
    (hsome : (Sync o st deps pods node policy pos).isSome = true)
    (hfIn : o.syncRulesFlushFails rootChainInName = false)
    (haIn : ∀ r ∈ rootRulesInOf deps pods node,
      o.syncRulesAppendFails rootChainInName r = false)
    (hfOut : o.syncRulesFlushFails rootChainOutName = false)
    (haOut : ∀ r ∈ rootRulesOutOf deps pods node,
      o.syncRulesAppendFails rootChainOutName r = false) :
    ∃ lin lout,
      lin.Perm (desiredChainsIn deps pods node) ∧ List.Sorted strLE lin
      ∧ lout.Perm (desiredChainsOut deps pods node) ∧ List.Sorted strLE lout
      ∧ (Sync o st deps pods node policy pos).map (fun s => s.chains rootChainInName)
          = some (some (establishedRule :: lin.map jumpRule))
      ∧ (Sync o st deps pods node policy pos).map (fun s => s.chains rootChainOutName)
          = some (some (establishedRule :: lout.map jumpRule)) := by
  obtain ⟨st1, hroot⟩ := Sync_isSome_elim o st deps pods node policy pos hsome
  obtain ⟨h1, h2⟩ := syncWorkloadsAndRoots_root_chains o policy deps pods node st1
    hfIn haIn hfOut haOut
  refine ⟨sortStrings (desiredChainsIn deps pods node),
    sortStrings (desiredChainsOut deps pods node),
    List.perm_insertionSort _ _, List.sorted_insertionSort _ _,
    List.perm_insertionSort _ _, List.sorted_insertionSort _ _, ?_, ?_⟩
  · rw [Sync_eq_some o st deps pods node policy pos st1 hroot]
    simp only [Option.map_some']
    exact congrArg some h1
  · rw [Sync_eq_some o st deps pods node policy pos st1 hroot]
    simp only [Option.map_some']
    exact congrArg some h2

theorem C4_witness :
    ∃ lin lout,
      lin.Perm (desiredChainsIn [ webDep ] [ webPod ] "node1") ∧ List.Sorted strLE lin
      ∧ lout.Perm (desiredChainsOut [ webDep ] [ webPod ] "node1") ∧ List.Sorted strLE lout
      ∧ (Sync noFailOracle emptyFw [ webDep ] [ webPod ] "node1" emptyPolicy "insert").map
          (fun s => s.chains rootChainInName)
          = some (some (establishedRule :: lin.map jumpRule))
      ∧ (Sync noFailOracle emptyFw [ webDep ] [ webPod ] "node1" emptyPolicy "insert").map
          (fun s => s.chains rootChainOutName)
          = some (some (establishedRule :: lout.map jumpRule)) :=
  C4_root_chains_layout noFailOracle emptyFw [ webDep ] [ webPod ] "node1" emptyPolicy
    "insert" (by decide) (by decide) (by decide) (by decide) (by decide)

/-- Claim C5 (counterexample): under `position = append`, a successful
`Sync` starting from a forwarding chain that already holds the ROOT-IN
jump leaves that jump in front: the final forwarding chain is the IN jump
followed by the OUT jump, so the OUT jump does NOT end up ahead of the IN
jump. -/
theorem C5_counterexample :
    (Sync noFailOracle fwWithInJump [] [] "node1" emptyPolicy "append").map
        (fun s => s.forward)
      = some [ jumpRule rootChainInName, jumpRule rootChainOutName ]
    ∧ (Sync noFailOracle fwWithInJump [] [] "node1" emptyPolicy "append").map
        (fun s => s.forward.head?) = some (some (jumpRule rootChainInName)) :=
  ⟨by decide, by decide⟩

/-- Claim C5 (amended): under `position = insert` every successful `Sync`
leaves the OUT jump at the front of the forwarding chain, immediately
followed by the IN jump (the IN jump is inserted first, the OUT jump
second, each at index 1).  Under `position = append` the OUT jump is
ensured first and the IN jump second, so the chain ends with
jump→OUT, jump→IN — provided neither jump was already present; a
pre-existing jump keeps its position because `-C` finds it. -/
theorem C5_out_jump_ahead_of_in_jump :
    (∀ (o : FailOracle) (st : FwState) (deps : List DeploymentView)
      (pods : List PodView) (node : String) (policy : PolicyConfig) (st' : FwState),
      Sync o st deps pods node policy "insert" = some st' →
      st'.forward.head? = some (jumpRule rootChainOutName)
      ∧ st'.forward[1]? = some (jumpRule rootChainInName))
    ∧ (∀ (o : FailOracle) (st : FwState) (deps : List DeploymentView)
      (pods : List PodView) (node : String) (policy : PolicyConfig) (st' : FwState),
      jumpRule rootChainInName ∉ st.forward →
      jumpRule rootChainOutName ∉ st.forward →
      Sync o st deps pods node policy "append" = some st' →
      st'.forward = st.forward ++ [ jumpRule rootChainOutName, jumpRule rootChainInName ]) := by
  constructor
  · intro o st deps pods node policy st' h
    unfold Sync at h
    cases hroot : syncRootStage o st "insert" with
    | none => rw [hroot] at h; exact absurd h (by simp)
    | some st1 =>
      rw [hroot] at h
      simp only [Option.map_some'] at h
      have hst' : st' = syncWorkloadsAndRoots o policy deps pods node st1 :=
        (Option.some_inj.mp h).symm
      subst hst'
      rw [syncWorkloadsAndRoots_forward]
      rw [syncRootStage_insert_forward o st st1 hroot]
      exact ⟨rfl, by simp⟩
  · intro o st deps pods node policy st' hni hno h
    unfold Sync at h
    cases hroot : syncRootStage o st "append" with
    | none => rw [hroot] at h; exact absurd h (by simp)
    | some st1 =>
      rw [hroot] at h
      simp only [Option.map_some'] at h
      have hst' : st' = syncWorkloadsAndRoots o policy deps pods node st1 :=
        (Option.some_inj.mp h).symm
      subst hst'
      rw [syncWorkloadsAndRoots_forward]
      exact syncRootStage_append_forward o st st1 hni hno hroot

theorem C5_witness :
    (∃ st', Sync noFailOracle emptyFw [] [] "node1" emptyPolicy "insert" = some st'
      ∧ st'.forward.head? = some (jumpRule rootChainOutName)
      ∧ st'.forward[1]? = some (jumpRule rootChainInName))
    ∧ (∃ st', Sync noFailOracle emptyFw [] [] "node1" emptyPolicy "append" = some st'
      ∧ st'.forward = emptyFw.forward
          ++ [ jumpRule rootChainOutName, jumpRule rootChainInName ]) := by
  constructor
  · cases hc : Sync noFailOracle emptyFw [] [] "node1" emptyPolicy "insert" with
    | none =>
      have hs : (Sync noFailOracle emptyFw [] [] "node1" emptyPolicy "insert").isSome
          = true := by decide
      rw [hc] at hs
      exact absurd hs (by simp)
    | some st' =>
      exact ⟨st', rfl, C5_out_jump_ahead_of_in_jump.1 noFailOracle emptyFw [] [] "node1"
        emptyPolicy st' hc⟩
  · cases hc : Sync noFailOracle emptyFw [] [] "node1" emptyPolicy "append" with
    | none =>
      have hs : (Sync noFailOracle emptyFw [] [] "node1" emptyPolicy "append").isSome
          = true := by decide
      rw [hc] at hs
      exact absurd hs (by simp)
    | some st' =>
      exact ⟨st', rfl, C5_out_jump_ahead_of_in_jump.2 noFailOracle emptyFw [] [] "node1"
        emptyPolicy st' (by decide) (by decide) hc⟩

/-! ## Claim C6: repeated insert-mode EnsureJump -/

/-- `n` sequential `EnsureJump(root, "insert")` calls. -/
def iterEnsureJumpInsert (o : FailOracle) (root : String) : Nat → FwState → FwState
  | 0, st => st
  | Nat.succ n, st => iterEnsureJumpInsert o root n (EnsureJump o st root "insert").2

/-- Forwarding chain already holding two identical ROOT-IN jumps (e.g.
left behind by a foreign writer). -/
def fwDupInJumps : FwState :=
  ⟨ fun _ => none, [ jumpRule rootChainInName, jumpRule rootChainInName ], fun _ => none ⟩

/-- Claim C6 (counterexample): starting from a forwarding chain that
already holds two identical jumps to ROOT-IN, one successful insert-mode
`EnsureJump` (which deletes only the first matching rule) leaves TWO jumps
in the chain, not exactly one. -/
theorem C6_counterexample :
    (EnsureJump noFailOracle fwDupInJumps rootChainInName "insert").1 = true
    ∧ List.count (jumpRule rootChainInName)
        (EnsureJump noFailOracle fwDupInJumps rootChainInName "insert").2.forward = 2 :=
  ⟨by decide, by decide⟩

theorem count_insert_step (f : List (List String)) (a : List String)
    (h : List.count a f ≤ 1) : List.count a (a :: f.erase a) = 1 := by
  rw [List.count_cons_self, List.count_erase_self]
  omega

/-- Claim C6 (amended): starting from a forwarding chain holding at most
one jump to `root` (in particular the chains the daemon itself produces),
after any positive number of successful insert-mode `EnsureJump` calls
exactly one jump to `root` exists and it sits at index 1 (the front). -/
theorem C6_insert_exactly_one_jump (o : FailOracle) (root : String) (n : Nat) (st : FwState)
    (ho : o.ensureJumpFails root = false)
    (hcount : List.count (jumpRule root) st.forward ≤ 1)
    (hn : 1 ≤ n) :
    List.count (jumpRule root) (iterEnsureJumpInsert o root n st).forward = 1
    ∧ (iterEnsureJumpInsert o root n st).forward.head? = some (jumpRule root) := by
  induction n generalizing st with
  | zero => omega
  | succ m ih =>
    unfold iterEnsureJumpInsert
    rw [EnsureJump_insert_ok o st root ho]
    cases m with
    | zero =>
      unfold iterEnsureJumpInsert
      exact ⟨count_insert_step st.forward (jumpRule root) hcount, rfl⟩
    | succ k =>
      apply ih
      · rw [show ({ st with forward := jumpRule root :: st.forward.erase (jumpRule root) }
          : FwState).forward = jumpRule root :: st.forward.erase (jumpRule root) from rfl]
        rw [count_insert_step st.forward (jumpRule root) hcount]
      · omega

theorem C6_witness :
    List.count (jumpRule rootChainInName)
        (iterEnsureJumpInsert noFailOracle rootChainInName 3 emptyFw).forward = 1
    ∧ (iterEnsureJumpInsert noFailOracle rootChainInName 3 emptyFw).forward.head?
        = some (jumpRule rootChainInName) :=
  C6_insert_exactly_one_jump noFailOracle rootChainInName 3 emptyFw
    (by decide) (by decide) (by decide)

/-! ## Claim C9: the policy store's normalization and the JSON round trip

`PolicyStore.Set` (policy.go) normalizes the document and, when a
persistence path is configured, serializes the normalized document with
`encoding/json`.  The serialization is modelled at the level of a JSON
syntax tree mirroring `encoding/json`'s behaviour on these struct shapes
(field names from the struct tags; nil and empty slices both encode to an
array here; missing or null fields decode to zero values). -/

/-- JSON syntax tree. -/
inductive Json where
  | null : Json
  | str : String → Json
  | num : Int → Json
  | arr : List Json → Json
  | obj : List (String × Json) → Json

/-- Decode a string-typed field: present strings decode to themselves,
`null` and missing fields to the zero value, anything else is an error. -/
def getStrField (fields : List (String × Json)) (k : String) : Option String :=
  match fields.lookup k with
  | some (Json.str s) => some s
  | some Json.null => some ""
  | none => some ""
  | some _ => none

/-- Decode a number-typed field. -/
def getNumField (fields : List (String × Json)) (k : String) : Option Int :=
  match fields.lookup k with
  | some (Json.num n) => some n
  | some Json.null => some 0
  | none => some 0
  | some _ => none

/-- Decode an array-typed field. -/
def getArrField (fields : List (String × Json)) (k : String) : Option (List Json) :=
  match fields.lookup k with
  | some (Json.arr xs) => some xs
  | some Json.null => some []
  | none => some []
  | some _ => none

/-- Decode every element of a JSON array. -/
def decodeList {α : Type} (dec : Json → Option α) : List Json → Option (List α)
  | [] => some []
  | j :: js =>
    match dec j, decodeList dec js with
    | some a, some as => some (a :: as)
    | _, _ => none

/-- `DeploymentRef` to JSON. -/
def DeploymentRef.toJson (r : DeploymentRef) : Json :=
  Json.obj [ ( "namespace", Json.str r.Namespace ), ( "name", Json.str r.Name ) ]

/-- `DeploymentRef` from JSON. -/
def DeploymentRef.fromJson : Json → Option DeploymentRef
  | Json.obj fields =>
    match getStrField fields "namespace", getStrField fields "name" with
    | some ns, some nm => some ⟨ns, nm⟩
    | _, _ => none
  | _ => none

/-- `Rule` to JSON. -/
def Rule.toJson (r : Rule) : Json :=
  Json.obj [ ( "action", Json.str r.Action ), ( "srcCIDR", Json.str r.SrcCIDR ),
    ( "protocol", Json.str r.Protocol ), ( "port", Json.num r.Port ) ]

/-- `Rule` from JSON. -/
def Rule.fromJson : Json → Option Rule
  | Json.obj fields =>
    match getStrField fields "action", getStrField fields "srcCIDR",
        getStrField fields "protocol", getNumField fields "port" with
    | some a, some s, some p, some n => some ⟨a, s, p, n⟩
    | _, _, _, _ => none
  | _ => none

/-- `DeploymentPolicy` to JSON. -/
def DeploymentPolicy.toJson (d : DeploymentPolicy) : Json :=
  Json.obj [ ( "namespace", Json.str d.Namespace ), ( "name", Json.str d.Name ),
    ( "ingressFrom", Json.arr (d.IngressFrom.map DeploymentRef.toJson) ),
    ( "egressTo", Json.arr (d.EgressTo.map DeploymentRef.toJson) ),
    ( "rules", Json.arr (d.Rules.map Rule.toJson) ) ]

/-- `DeploymentPolicy` from JSON. -/
def DeploymentPolicy.fromJson : Json → Option DeploymentPolicy
  | Json.obj fields =>
    match getStrField fields "namespace", getStrField fields "name",
        getArrField fields "ingressFrom", getArrField fields "egressTo",
        getArrField fields "rules" with
    | some ns, some nm, some ja, some jb, some jc =>
      match decodeList DeploymentRef.fromJson ja, decodeList DeploymentRef.fromJson jb,
          decodeList Rule.fromJson jc with
      | some ing, some eg, some rs => some ⟨ns, nm, ing, eg, rs⟩
      | _, _, _ => none
    | _, _, _, _, _ => none
  | _ => none

/-- `PolicyConfig` to JSON (the store's serialized form). -/
def PolicyConfig.toJson (c : PolicyConfig) : Json :=
  Json.obj [ ( "defaultAction", Json.str c.DefaultAction ),
    ( "deployments", Json.arr (c.Deployments.map DeploymentPolicy.toJson) ) ]

/-- `PolicyConfig` from JSON (the store's parse at construction). -/
def PolicyConfig.fromJson : Json → Option PolicyConfig
  | Json.obj fields =>
    match getStrField fields "defaultAction", getArrField fields "deployments" with
    | some da, some jd =>
      match decodeList DeploymentPolicy.fromJson jd with
      | some ds => some ⟨da, ds⟩
      | none => none
    | _, _ => none
  | _ => none

theorem decodeList_map {α : Type} (dec : Json → Option α) (f : α → Json)
    (h : ∀ x, dec (f x) = some x) : ∀ xs, decodeList dec (xs.map f) = some xs
  | [] => rfl
  | x :: xs => by
    rw [List.map_cons]
    unfold decodeList
    rw [h x, decodeList_map dec f h xs]

theorem depRefRoundTrip (r : DeploymentRef) :
    DeploymentRef.fromJson (DeploymentRef.toJson r) = some r := by
  cases r
  rfl

theorem ruleRoundTrip (r : Rule) : Rule.fromJson (Rule.toJson r) = some r := by
  cases r
  rfl

theorem depPolicyRoundTrip (d : DeploymentPolicy) :
    DeploymentPolicy.fromJson (DeploymentPolicy.toJson d) = some d := by
  cases d with
  | mk ns nm ing eg rs =>
    unfold DeploymentPolicy.toJson DeploymentPolicy.fromJson
    dsimp only
    rw [show getStrField [ ( "namespace", Json.str ns ), ( "name", Json.str nm ),
      ( "ingressFrom", Json.arr (ing.map DeploymentRef.toJson) ),
      ( "egressTo", Json.arr (eg.map DeploymentRef.toJson) ),
      ( "rules", Json.arr (rs.map Rule.toJson) ) ] "namespace" = some ns from rfl]
    rw [show getStrField [ ( "namespace", Json.str ns ), ( "name", Json.str nm ),
      ( "ingressFrom", Json.arr (ing.map DeploymentRef.toJson) ),
      ( "egressTo", Json.arr (eg.map DeploymentRef.toJson) ),
      ( "rules", Json.arr (rs.map Rule.toJson) ) ] "name" = some nm from rfl]
    rw [show getArrField [ ( "namespace", Json.str ns ), ( "name", Json.str nm ),
      ( "ingressFrom", Json.arr (ing.map DeploymentRef.toJson) ),
      ( "egressTo", Json.arr (eg.map DeploymentRef.toJson) ),
      ( "rules", Json.arr (rs.map Rule.toJson) ) ] "ingressFrom" = some (ing.map DeploymentRef.toJson) from rfl]
    rw [show getArrField [ ( "namespace", Json.str ns ), ( "name", Json.str nm ),
      ( "ingressFrom", Json.arr (ing.map DeploymentRef.toJson) ),
      ( "egressTo", Json.arr (eg.map DeploymentRef.toJson) ),
      ( "rules", Json.arr (rs.map Rule.toJson) ) ] "egressTo" = some (eg.map DeploymentRef.toJson) from rfl]
    rw [show getArrField [ ( "namespace", Json.str ns ), ( "name", Json.str nm ),
      ( "ingressFrom", Json.arr (ing.map DeploymentRef.toJson) ),
      ( "egressTo", Json.arr (eg.map DeploymentRef.toJson) ),
      ( "rules", Json.arr (rs.map Rule.toJson) ) ] "rules" = some (rs.map Rule.toJson) from rfl]
    dsimp only
    rw [decodeList_map DeploymentRef.fromJson DeploymentRef.toJson depRefRoundTrip ing]
    rw [decodeList_map DeploymentRef.fromJson DeploymentRef.toJson depRefRoundTrip eg]
    rw [decodeList_map Rule.fromJson Rule.toJson ruleRoundTrip rs]

theorem policyConfigRoundTrip (c : PolicyConfig) :
    PolicyConfig.fromJson (PolicyConfig.toJson c) = some c := by
  cases c with
  | mk da ds =>
    unfold PolicyConfig.toJson PolicyConfig.fromJson
    dsimp only
    rw [show getStrField [ ( "defaultAction", Json.str da ),
      ( "deployments", Json.arr (ds.map DeploymentPolicy.toJson) ) ] "defaultAction" = some da from rfl]
    rw [show getArrField [ ( "defaultAction", Json.str da ),
      ( "deployments", Json.arr (ds.map DeploymentPolicy.toJson) ) ] "deployments" = some (ds.map DeploymentPolicy.toJson) from rfl]
    dsimp only
    rw [decodeList_map DeploymentPolicy.fromJson DeploymentPolicy.toJson
      depPolicyRoundTrip ds]

/-- The normalization `PolicyStore.Set` applies before storing and
persisting: an empty (after trimming) `DefaultAction` becomes `ALLOW`. -/
def normalizePolicy (cfg : PolicyConfig) : PolicyConfig :=
  if trimSpace cfg.DefaultAction == "" then { cfg with DefaultAction := "ALLOW" } else cfg

/-- Modelled from the spec (for comparison only): the spec's normalization
fills `defaultAction = ACCEPT` when empty. -/
def specNormalizePolicy (cfg : PolicyConfig) : PolicyConfig :=
  if trimSpace cfg.DefaultAction == "" then { cfg with DefaultAction := "ACCEPT" } else cfg

/-- The JSON document `PolicyStore.Set` persists (it normalizes `cfg`
first and serializes the normalized document). -/
def persistedPolicyJson (cfg : PolicyConfig) : Json :=
  PolicyConfig.toJson (normalizePolicy cfg)

/-- Claim C9 (counterexample): the store fills an empty `defaultAction`
with `ALLOW`, not `ACCEPT`; the code's normalization differs from the
spec's on the empty document. -/
theorem C9_counterexample :
    (normalizePolicy ⟨ "", [] ⟩).DefaultAction = "ALLOW"
    ∧ normalizePolicy ⟨ "", [] ⟩ ≠ specNormalizePolicy ⟨ "", [] ⟩ :=
  ⟨by decide, by decide⟩

/-- Claim C9 (amended): parsing the store's serialized form returns the
normalized document, `parse(serialize(normalize d)) = normalize d`, where
the code's normalization fills `defaultAction = ALLOW` (not ACCEPT) when
it is empty after trimming; `set(doc)` stores and persists that
ALLOW-normalized document. -/
theorem C9_store_roundtrip_normalizes (cfg : PolicyConfig) :
    PolicyConfig.fromJson (persistedPolicyJson cfg) = some (normalizePolicy cfg)
    ∧ (trimSpace cfg.DefaultAction = "" → (normalizePolicy cfg).DefaultAction = "ALLOW") := by
  constructor
  · exact policyConfigRoundTrip (normalizePolicy cfg)
  · intro h
    unfold normalizePolicy
    rw [if_pos (by simpa using h)]

/-- Concrete document exercising every nested shape, used by the C9
witness. -/
def examplePolicyDoc : PolicyConfig :=
  ⟨ "", [ ⟨ "default", "web", [ ⟨ "default", "client" ⟩ ], [ ⟨ "default", "db" ⟩ ],
    [ ⟨ "ALLOW", "10.0.0.0/24", "tcp", 80 ⟩ ] ⟩ ] ⟩

theorem C9_witness :
    PolicyConfig.fromJson (persistedPolicyJson examplePolicyDoc)
        = some (normalizePolicy examplePolicyDoc)
    ∧ trimSpace examplePolicyDoc.DefaultAction = ""
    ∧ (normalizePolicy examplePolicyDoc).DefaultAction = "ALLOW" :=
  ⟨(C9_store_roundtrip_normalizes examplePolicyDoc).1, by decide,
    (C9_store_roundtrip_normalizes examplePolicyDoc).2 (by decide)⟩

end Microseg
